import Mathlib

set_option maxHeartbeats 1000000
set_option maxRecDepth 100000

/-!
Shallow embedding of the `sext` text-rendering library (src/lib.rs and
src/colours.rs) and verification of its specification claims.

Modelling conventions:
* Machine integers (`u8`, `u16`, `usize`, `i32`) are modelled as `Nat`/`Int`;
  the one truncating cast that matters (`height as u16` in
  `get_glyph_surface`) is modelled as `% 65536`.  `i32` cursor arithmetic in
  `TestSurface::paste` is modelled over `Int` (exact); the claim theorem for
  paste carries explicit `< 2^31` hypotheses that bound every `i32`
  intermediate of the source — the two bound constants, both pitches, the
  `width as i32 * 4` row-adjustment term and the running cursors' maxima —
  so within those hypotheses the `i32` arithmetic of the source can neither
  wrap (release) nor panic (debug) and the exact model is faithful; see the
  coverage analysis on the paste claim theorem.
* `f32` coordinates are modelled as `ℚ`; the values the claims speak about
  (small integers, halves) are exactly representable in `f32`, where `f32`
  arithmetic is exact.  Rust's saturating `as usize` cast from a float is
  `ratToUsize` (floor, clamped below at zero).
* Rust `HashMap`s are modelled as `Option`-valued functions; `entry(..).or_insert`
  leaves the map unchanged when the key is present, and otherwise produces the
  map updated at that key, exactly as in the source.
* Fallible operations (`unwrap` panics, byte-slice panics, `Result`) are
  modelled with `Option`/`Except`.
* External collaborators that are not code of this repository (the fontdue
  rasterizer, the fontdue layout engine, `std::fs::read`,
  `u8::from_str_radix`) enter as parameters: a `Font` is its pure
  `rasterize_config` function, the layout result is the list of positioned
  glyph descriptors handed to the draw loops, and file reading / font parsing
  are `Option`-valued function parameters of `load`.  `u8::from_str_radix`
  is modelled directly (including its documented acceptance of a leading
  plus sign and its rejection of empty digit strings).
-/

/-- RGBA colour (src/colours.rs `TextColour`).  Four `u8` channels; the
constructors below only ever produce channel values `< 256`, and no claim
depends on `u8` wrap-around, so channels are plain `Nat`. -/
structure TextColour where
  r : Nat
  g : Nat
  b : Nat
  a : Nat
deriving DecidableEq, Repr

/-- Constructor `TextColour::new`. -/
def TextColour.new (r g b a : Nat) : TextColour := ⟨r, g, b, a⟩

/-- Constructor `TextColour::new_rgb` (alpha defaults to 255). -/
def TextColour.new_rgb (r g b : Nat) : TextColour := ⟨r, g, b, 255⟩

/-- Value of one hexadecimal digit character as accepted by
`u8::from_str_radix(.., 16)` (which goes through `char::to_digit(16)`:
`0`-`9`, `a`-`f`, `A`-`F`).  Stated on `Char.toNat` codes to keep the
arithmetic `omega`-friendly: 48..57 are `0`..`9`, 97..102 are `a`..`f`,
65..70 are `A`..`F`. -/
def hexDigitVal (c : Char) : Option Nat :=
  if 48 ≤ c.toNat ∧ c.toNat ≤ 57 then some (c.toNat - 48)
  else if 97 ≤ c.toNat ∧ c.toNat ≤ 102 then some (c.toNat - 87)
  else if 65 ≤ c.toNat ∧ c.toNat ≤ 70 then some (c.toNat - 55)
  else none

/-- Model of `u8::from_str_radix(s, 16)` on a list of (ASCII) characters.
Per the standard library: an optional leading `+` sign is accepted (a `-`
is not, for an unsigned type), an empty digit string is an error, any
non-digit is an error, and overflow past `u8::MAX` is an error (checked at
every step; for a value that stays `≤ 255` no intermediate step can
overflow, so a single running check is equivalent). -/
def fromStrRadix16 (s : List Char) : Option Nat :=
  let digits := match s with
    | c :: rest => if c = '+' then rest else s
    | [] => []
  if digits = [] then none
  else digits.foldl (fun acc d =>
    match acc, hexDigitVal d with
    | some a, some v => if 16 * a + v ≤ 255 then some (16 * a + v) else none
    | _, _ => none) (some 0)

/-- Strip of the optional leading `#`, as done by both hex constructors
(`if hex.starts_with('#') { hex = &hex[1..]; }`). -/
def stripHash (s : List Char) : List Char :=
  match s with
  | '#' :: rest => rest
  | _ => s

/-- Byte slice `&s[a..b]`: defined when `b ≤ s.length`, a panic otherwise.
The inputs the claims exercise are ASCII, where byte indices and character
indices coincide; for non-ASCII input both the real byte slicing and this
model end in a fatal outcome (`from_str_radix` rejects any non-ASCII slice,
and a mid-character slice panics), so the success/failure distinction is
preserved. -/
def sliceOpt (s : List Char) (a b : Nat) : Option (List Char) :=
  if b ≤ s.length then some ((s.drop a).take (b - a)) else none

/-- Model of `TextColour::from_hex` (src/colours.rs).  The `unwrap` panics on
malformed input are modelled as `none`. -/
def TextColour.from_hex (s : List Char) : Option TextColour := do
  let hex := stripHash s
  let r ← fromStrRadix16 (← sliceOpt hex 0 2)
  let g ← fromStrRadix16 (← sliceOpt hex 2 4)
  let b ← fromStrRadix16 (← sliceOpt hex 4 6)
  pure ⟨r, g, b, 255⟩

/-- Model of `TextColour::from_hex_with_alpha` (src/colours.rs). -/
def TextColour.from_hex_with_alpha (s : List Char) : Option TextColour := do
  let hex := stripHash s
  let r ← fromStrRadix16 (← sliceOpt hex 0 2)
  let g ← fromStrRadix16 (← sliceOpt hex 2 4)
  let b ← fromStrRadix16 (← sliceOpt hex 4 6)
  let a ← fromStrRadix16 (← sliceOpt hex 6 8)
  pure ⟨r, g, b, a⟩

/-- Rust `as usize` applied to an `f32` coordinate: truncation toward zero,
saturating at 0 for negative values.  On the exact rationals used here,
truncation-toward-zero followed by the clamp agrees with `floor` followed by
`Int.toNat` (negative non-integers floor to a negative integer, which
`Int.toNat` clamps to 0 just as truncation does). -/
def ratToUsize (q : ℚ) : Nat := q.floor.toNat

/-- Positioned glyph descriptor produced by the (external) fontdue layout
engine: `fontdue::layout::GlyphPosition`.  `key` is the opaque
`GlyphRasterConfig` (the glyph identity: glyph index + px size + font),
`parent` is the source character this glyph was generated from, `(x, y)` the
layout position and `width`/`height` the rasterized pixel dimensions. -/
structure GlyphPosition (K : Type) where
  key : K
  parent : Char
  x : ℚ
  y : ℚ
  width : Nat
  height : Nat
deriving DecidableEq

/-- External rasterizer: a font is consumed only through
`font.rasterize_config(key)`, a pure function from a raster config to the
single-channel coverage mask (one byte per pixel; the `Metrics` half of the
fontdue return value is unused by `cache_glyph`). -/
structure Font (K : Type) where
  rasterize_config : K → List Nat

/-- Inner cache level (src/lib.rs `GlyphCache<T>`): a `size` tag and a map
`TextColour → (char → (raw colourized bytes, artifact))`.  The innermost map
is keyed by `char` — the glyph's `parent` character — exactly as in the
source. -/
structure GlyphCache (T : Type) where
  size : ℚ
  surface_map : TextColour → Option (Char → Option (List Nat × T))

/-- The renderer (src/lib.rs `TextRenderer<T>`): a shared font handle and
the per-instance `HashMap<u16, GlyphCache<T>>`.  The `Arc<Layout>` field is
behaviourally inert (both draw paths build a fresh `Layout`), so it is not
modelled. -/
structure TextRenderer (K T : Type) where
  font : Font K
  glyph_caches : Nat → Option (GlyphCache T)

/-- Model of the derived `Clone` of `TextRenderer`: the `Arc<Font>` clone
shares the font (same handle value), while the `HashMap` clone deep-copies
the cache store.  In the value model both components are copied; what the
derive guarantees — and what this definition encodes — is that the cache
store is an owned per-instance value, not a shared reference. -/
def TextRenderer.clone {K T : Type} (r : TextRenderer K T) : TextRenderer K T :=
  { font := r.font, glyph_caches := r.glyph_caches }

/-- Construction error enum (src/lib.rs `TextRendererError`). -/
inductive TextRendererError where
  | FontNotFound
deriving DecidableEq, Repr

/-- Model of `TextRenderer::load`.  The two external effects
(`std::fs::read` and `fontdue::Font::from_bytes`) are passed as
`Option`-valued functions; both error cases are mapped to `FontNotFound`
and the success case builds a renderer with an empty cache store, exactly
as the source does. -/
def load {K T : Type} (read_file : String → Option (List Nat))
    (font_from_bytes : List Nat → Option (Font K)) (font_path : String) :
    Except TextRendererError (TextRenderer K T) :=
  match read_file font_path with
  | none => Except.error TextRendererError.FontNotFound
  | some font_data =>
    match font_from_bytes font_data with
    | none => Except.error TextRendererError.FontNotFound
    | some font => Except.ok { font := font, glyph_caches := fun _ => none }

/-- Model of `cache_glyph` (src/lib.rs lines 57-70): rasterize the glyph's
raster config, then per coverage byte push `colour.r`, `colour.g`,
`colour.b`, and the coverage byte itself (which becomes the alpha channel),
then build the artifact from the colourized bytes. -/
def cache_glyph {K T : Type} (font : Font K) (glyph : GlyphPosition K)
    (colour : TextColour) (make_t : List Nat → T) : List Nat × T :=
  let bitmap := font.rasterize_config glyph.key
  let coloured_pixels := bitmap.foldl
    (fun acc pixel => acc ++ [colour.r, colour.g, colour.b, pixel]) []
  (coloured_pixels, make_t coloured_pixels)

/-- Lookup of the cache entry stored for a (size-bucket, colour, parent
char) triple: the chain size bucket → colour map → glyph map traversed with
the same empty defaults `get_glyph_surface` creates lazily. -/
def lookupEntry {K T : Type} (r : TextRenderer K T) (size : Nat)
    (colour : TextColour) (ch : Char) : Option (List Nat × T) :=
  (((r.glyph_caches size).getD
      { size := (size : ℚ), surface_map := fun _ => none }).surface_map colour).getD
    (fun _ => none) ch

/-- Model of `TextRenderer::get_glyph_surface` (src/lib.rs lines 153-183),
instrumented with the list of raster configs handed to the external
rasterizer during the call (`[]` on a hit, `[glpyh.key]` on a miss).
`let size = height as u16` is the `% 65536`; the three `entry(..).or_insert`
levels leave existing levels unchanged and create missing ones empty, so a
hit at the innermost level (which implies all three levels exist) leaves
the whole store untouched, and a miss writes the three levels back with the
new entry inserted under `glpyh.parent`.  The returned artifact is a clone
of the stored one; cloning is value copying.  (The misspelling `glpyh` is
the source's.) -/
def get_glyph_surface_traced {K T : Type} [DecidableEq K]
    (from_raw_mask : Nat → Nat → List Nat → TextColour → T)
    (r : TextRenderer K T) (glpyh : GlyphPosition K) (width height : Nat)
    (colour : TextColour) : TextRenderer K T × T × List K :=
  let size := height % 65536
  let gc := (r.glyph_caches size).getD
    { size := (size : ℚ), surface_map := fun _ => none }
  let colour_map := (gc.surface_map colour).getD (fun _ => none)
  match colour_map glpyh.parent with
  | some entry => (r, entry.2, [])
  | none =>
    let entry := cache_glyph r.font glpyh colour
      (fun data => from_raw_mask width height data colour)
    let colour_map2 : Char → Option (List Nat × T) :=
      fun ch => if ch = glpyh.parent then some entry else colour_map ch
    let gc2 : GlyphCache T :=
      { size := gc.size,
        surface_map := fun c => if c = colour then some colour_map2 else gc.surface_map c }
    ({ font := r.font,
       glyph_caches := fun s => if s = size then some gc2 else r.glyph_caches s },
     entry.2, [glpyh.key])

/-- `TextRenderer::get_glyph_surface` itself: the traced model with the
instrumentation projected away. -/
def get_glyph_surface {K T : Type} [DecidableEq K]
    (from_raw_mask : Nat → Nat → List Nat → TextColour → T)
    (r : TextRenderer K T) (glpyh : GlyphPosition K) (width height : Nat)
    (colour : TextColour) : TextRenderer K T × T :=
  ((get_glyph_surface_traced from_raw_mask r glpyh width height colour).1,
   (get_glyph_surface_traced from_raw_mask r glpyh width height colour).2.1)

/-- Harness for stating lifetime invariants: an arbitrary sequence of cache
requests, each a (glyph descriptor, width, height, colour) tuple, processed
in order. -/
def processRequests {K T : Type} [DecidableEq K]
    (from_raw_mask : Nat → Nat → List Nat → TextColour → T)
    (r : TextRenderer K T)
    (reqs : List (GlyphPosition K × Nat × Nat × TextColour)) : TextRenderer K T :=
  reqs.foldl
    (fun acc q => (get_glyph_surface from_raw_mask acc q.1 q.2.1 q.2.2.1 q.2.2.2).1) r

/-- The `DrawableSurface` trait (src/lib.rs lines 34-48) as a record of its
two operations: `paste(dst, x, y, width, height, src)` and
`from_raw_mask(width, height, data, colour)`. -/
structure DrawableOps (T : Type) where
  paste : T → Nat → Nat → Nat → Nat → T → T
  from_raw_mask : Nat → Nat → List Nat → TextColour → T

/-- Loop body sequence of `TextRenderer::draw_string` (src/lib.rs lines
123-150).  The external layout pass (`Layout::reset`/`append`/`glyphs()`)
is the `glyphs` parameter; for each positioned glyph in order the artifact
is fetched or populated through the cache with the glyph's rasterized
width/height, then pasted at `((x + glyph.x) as usize, (y + glyph.y) as
usize)` with the glyph's rasterized width and height. -/
def draw_go {K T : Type} [DecidableEq K] (ops : DrawableOps T) (x y : ℚ)
    (colour : TextColour) :
    TextRenderer K T × T → List (GlyphPosition K) → TextRenderer K T × T
  | st, [] => st
  | st, glyph :: rest =>
    let res := get_glyph_surface ops.from_raw_mask st.1 glyph glyph.width glyph.height colour
    draw_go ops x y colour
      (res.1,
       ops.paste st.2 (ratToUsize (x + glyph.x)) (ratToUsize (y + glyph.y))
         glyph.width glyph.height res.2)
      rest

/-- `TextRenderer::draw_string`.  `size` only feeds the external layout
pass (it appears in `TextStyle::new(string, size, 0)`), which is abstracted
into the `glyphs` list, so it is carried but unused here. -/
def draw_string {K T : Type} [DecidableEq K] (ops : DrawableOps T)
    (r : TextRenderer K T) (x y size : ℚ) (colour : TextColour) (surface : T)
    (glyphs : List (GlyphPosition K)) : TextRenderer K T × T :=
  draw_go ops x y colour (r, surface) glyphs

/-- Loop of `TextRenderer::draw_string_monospaced` (src/lib.rs lines
91-118).  The `glyphs.iter().zip(0..)` index is the `i` accumulator.  The
cache request is identical to the proportional path (rasterized
width/height); the paste overrides the horizontal placement to
`(x + (size/2)*i) as usize` with forced width `(size/2) as usize`, keeping
`(y + glyph.y) as usize` and the rasterized height. -/
def draw_monospaced_go {K T : Type} [DecidableEq K] (ops : DrawableOps T)
    (x y size : ℚ) (colour : TextColour) :
    TextRenderer K T × T → Nat → List (GlyphPosition K) → TextRenderer K T × T
  | st, _, [] => st
  | st, i, glyph :: rest =>
    let res := get_glyph_surface ops.from_raw_mask st.1 glyph glyph.width glyph.height colour
    draw_monospaced_go ops x y size colour
      (res.1,
       ops.paste st.2 (ratToUsize (x + size / 2 * (i : ℚ))) (ratToUsize (y + glyph.y))
         (ratToUsize (size / 2)) glyph.height res.2)
      (i + 1) rest

/-- `TextRenderer::draw_string_monospaced`: same layout pass as
`draw_string` (both build the identical fresh `Layout` over the same
settings and style, here the shared `glyphs` parameter), then the
monospaced paste loop starting at index 0. -/
def draw_string_monospaced {K T : Type} [DecidableEq K] (ops : DrawableOps T)
    (r : TextRenderer K T) (x y size : ℚ) (colour : TextColour) (surface : T)
    (glyphs : List (GlyphPosition K)) : TextRenderer K T × T :=
  draw_monospaced_go ops x y size colour (r, surface) 0 glyphs

/-- Record of one `paste` invocation made against a recording surface:
position, dimensions, and the construction data of the artifact that was
pasted (the `from_raw_mask` arguments it was built from, if any). -/
structure PasteCall where
  x : Nat
  y : Nat
  width : Nat
  height : Nat
  src : Option (Nat × Nat × List Nat × TextColour)
deriving DecidableEq, Repr

/-- Recording implementation of the `DrawableSurface` capability, used to
observe the sequence of paste operations a draw call performs.  `made`
remembers the `from_raw_mask` arguments when the value is an artifact;
`calls` accumulates the paste invocations when it is a destination
surface. -/
structure RecSurface where
  made : Option (Nat × Nat × List Nat × TextColour)
  calls : List PasteCall
deriving DecidableEq, Repr

/-- The recording `DrawableSurface` operations. -/
def recOps : DrawableOps RecSurface :=
  { paste := fun s x y w h d => { s with calls := s.calls ++ [⟨x, y, w, h, d.made⟩] },
    from_raw_mask := fun w h d c => { made := some (w, h, d, c), calls := [] } }

/-- The reference surface from the repository's test harness
(`TestSurface` in src/lib.rs, lines 191-238): explicit dimensions plus a
flat row-major RGBA byte buffer. -/
structure TestSurface where
  width : Nat
  height : Nat
  data : List Nat
deriving DecidableEq, Repr

/-- Write of one RGBA pixel: the four consecutive byte stores of the paste
inner loop (`self.data[index..index+3] = data.data[data_index..data_index+3]`).
`List.set` out of range is inert and `getD` defaults, matching the fact
that the safety theorems only apply when the buffers have their declared
`width*height*4` lengths (anything else panics in the source). -/
def write4 (buf : List Nat) (i : Nat) (src : List Nat) (j : Nat) : List Nat :=
  ((((buf.set i (src.getD j 0)).set (i + 1) (src.getD (j + 1) 0)).set
      (i + 2) (src.getD (j + 2) 0)).set (i + 3) (src.getD (j + 3) 0))

/-- Guarded pixel copy of `TestSurface::paste`'s inner loop body: if either
linear cursor is outside `[0, width*height*4)` of its surface the pixel is
skipped, otherwise the four bytes are copied. -/
def cellWrite (dstW dstH srcW srcH : Nat) (srcData : List Nat)
    (buf : List Nat) (ix dx : Int) : List Nat :=
  if ix < 0 ∨ (dstW * dstH * 4 : Int) ≤ ix ∨ dx < 0 ∨ (srcW * srcH * 4 : Int) ≤ dx
  then buf
  else write4 buf ix.toNat srcData dx.toNat

/-- One iteration of the inner `for _ in 0..width` loop of
`TestSurface::paste`: the guarded copy, then both cursors advance by 4 —
also when the pixel was skipped (`continue` still runs the `+= 4`s). -/
def pasteCell (dstW dstH srcW srcH : Nat) (srcData : List Nat)
    (st : List Nat × Int × Int) : List Nat × Int × Int :=
  (cellWrite dstW dstH srcW srcH srcData st.1 st.2.1 st.2.2,
   st.2.1 + 4, st.2.2 + 4)

/-- One iteration of the outer `for _ in 0..height` loop of
`TestSurface::paste`: `width` inner iterations, then
`index += pitch - width*4` and `data_index += data_pitch - width*4`. -/
def pasteRow (dstW dstH srcW srcH width : Nat) (srcData : List Nat)
    (st : List Nat × Int × Int) : List Nat × Int × Int :=
  let st2 := (List.range width).foldl
    (fun s _ => pasteCell dstW dstH srcW srcH srcData s) st
  (st2.1, st2.2.1 + ((dstW * 4 : Int) - (width * 4 : Int)),
   st2.2.2 + ((srcW * 4 : Int) - (width * 4 : Int)))

/-- Model of `TestSurface::paste` (src/lib.rs lines 199-225).  `pitch` is
`self.width * 4`, `data_pitch` is `data.width * 4`; the destination cursor
starts at `y*pitch + x*4` and the source cursor at 0; the cursors are `i32`
(here exact `Int`; see the module comment about the overflow regime). -/
def TestSurface.paste (self : TestSurface) (x y width height : Nat)
    (data : TestSurface) : TestSurface :=
  let fin := (List.range height).foldl
    (fun st _ => pasteRow self.width self.height data.width data.height width data.data st)
    (self.data, (y : Int) * ((self.width : Int) * 4) + (x : Int) * 4, 0)
  { self with data := fin.1 }

/-- Destination pixel index reached by the paste cursor at block cell
`(row, column)`: the cursor starts at `y*dstW + x` (in pixels) and advances
one pixel per cell and `dstW` pixels per row, so cell `(r, c)` addresses
linear pixel `(y+r)*dstW + x + c` — with no per-row clipping, an overflowing
`x + c` bleeds into the next destination row, exactly as the source
cursor arithmetic does. -/
def dstPixIdx (dstW x y : Nat) (rc : Nat × Nat) : Nat :=
  (y + rc.1) * dstW + x + rc.2

/-- Source pixel index reached by the source cursor at block cell
`(row, column)`: `r*srcW + c`. -/
def srcPixIdx (srcW : Nat) (rc : Nat × Nat) : Nat :=
  rc.1 * srcW + rc.2

/-- Flattened form of the paste loops: the same guarded writes, indexed
directly by row/column instead of by the running cursors (destination byte
index `4*dstPixIdx`, source byte index `4*srcPixIdx`). -/
def writeStep (dstW dstH srcW srcH x y : Nat) (srcData : List Nat)
    (b : List Nat) (rc : Nat × Nat) : List Nat :=
  if dstW * dstH ≤ dstPixIdx dstW x y rc ∨ srcW * srcH ≤ srcPixIdx srcW rc
  then b
  else write4 b (4 * dstPixIdx dstW x y rc) srcData (4 * srcPixIdx srcW rc)

/-- Row-major enumeration of the `height × width` block. -/
def pixList (height width : Nat) : List (Nat × Nat) :=
  (List.range height).flatMap (fun r => (List.range width).map (fun c => (r, c)))

/-- Example rasterizer for the concrete cache theorems: raster config 0
produces the one-pixel mask `[1]`, every other config the one-pixel mask
`[2]`. -/
def exFont : Font Nat := { rasterize_config := fun k => if k = 0 then [1] else [2] }

/-- Fresh renderer over `exFont` with artifacts that are just the raw
colourized byte vectors (`from_raw_mask` returns its data argument). -/
def exRenderer : TextRenderer Nat (List Nat) :=
  { font := exFont, glyph_caches := fun _ => none }

/-- Artifact builder for the List-artifact instantiation. -/
def exFrm : Nat → Nat → List Nat → TextColour → List Nat := fun _ _ d _ => d

/-- Example colour used by the concrete cache theorems. -/
def exColour : TextColour := ⟨10, 20, 30, 255⟩

/-- Glyph: raster config 0, parent character 'a', 1×1 pixel. -/
def exG1 : GlyphPosition Nat := ⟨0, 'a', 0, 0, 1, 1⟩

/-- Glyph with a raster config distinct from `exG1`'s but the same parent
character 'a' (e.g. the same character at a slightly different requested px
size that rasterizes to the same pixel height). -/
def exG2 : GlyphPosition Nat := ⟨1, 'a', 0, 0, 1, 1⟩

/-- Glyph with the same raster config as `exG1` but parent character 'b'
(e.g. two characters missing from the font both map to the .notdef glyph,
giving identical raster configs under distinct parents). -/
def exG3 : GlyphPosition Nat := ⟨0, 'b', 0, 0, 1, 1⟩

/-- Fresh renderer over `exFont` for the recording-surface draw theorems. -/
def exRendererR : TextRenderer Nat RecSurface :=
  { font := exFont, glyph_caches := fun _ => none }

/-- Concrete glyph descriptors for the draw witnesses (distinct natural
advance positions and sizes). -/
def exGA : GlyphPosition Nat := ⟨0, 'a', 5, 7, 2, 3⟩

/-- Second concrete glyph descriptor for the draw witnesses. -/
def exGB : GlyphPosition Nat := ⟨1, 'b', 9, 1, 4, 3⟩

/-- Example file system for the `load` witness: exactly one readable path. -/
def exRead : String → Option (List Nat) :=
  fun p => if p = "font.ttf" then some [1, 2, 3] else none

/-- Example font parser for the `load` witness: parses exactly the bytes
`[1, 2, 3]`. -/
def exParse : List Nat → Option (Font Nat) :=
  fun b => if b = [1, 2, 3] then some exFont else none

/-- An 8×8 all-zero destination surface. -/
def exDst : TestSurface := ⟨8, 8, List.replicate 256 0⟩

/-- A 4×4 source surface whose bytes are all 7. -/
def exSrc : TestSurface := ⟨4, 4, List.replicate 64 7⟩

theorem hexDigitVal_lt16 {c : Char} {v : Nat} (h : hexDigitVal c = some v) : v < 16 := by
  unfold hexDigitVal at h
  split_ifs at h <;> simp_all <;> omega

theorem fromStrRadix16_pair {a b : Char} {va vb : Nat}
    (ha : hexDigitVal a = some va) (hb : hexDigitVal b = some vb) :
    fromStrRadix16 [a, b] = some (16 * va + vb) := by
  have hlta : va < 16 := hexDigitVal_lt16 ha
  have hltb : vb < 16 := hexDigitVal_lt16 hb
  have hne : a ≠ '+' := by
    intro h
    rw [h] at ha
    simp [hexDigitVal] at ha
  unfold fromStrRadix16
  simp only [if_neg hne]
  simp only [List.foldl_cons, List.foldl_nil, ha, hb]
  have hva : va ≤ 255 := by omega
  have hvb : 16 * va + vb ≤ 255 := by omega
  simp [hva, hvb]

theorem fromStrRadix16_pair_isSome (a b : Char) :
    (fromStrRadix16 [a, b]).isSome ↔
      (((hexDigitVal a).isSome ∧ (hexDigitVal b).isSome) ∨
        (a = '+' ∧ (hexDigitVal b).isSome)) := by
  by_cases hpa : a = '+'
  · subst hpa
    have hplus : hexDigitVal '+' = none := by decide
    cases hb : hexDigitVal b with
    | none => simp [fromStrRadix16, hplus, hb]
    | some vb =>
      have hlt : vb < 16 := hexDigitVal_lt16 hb
      simp [fromStrRadix16, hplus, hb]
      omega
  · cases ha : hexDigitVal a with
    | none => simp [fromStrRadix16, if_neg hpa, ha, hpa]
    | some va =>
      cases hb : hexDigitVal b with
      | none =>
        have hlt : va < 16 := hexDigitVal_lt16 ha
        simp [fromStrRadix16, if_neg hpa, ha, hb, hpa]
      | some vb =>
        rw [fromStrRadix16_pair ha hb]
        simp [ha, hb]

theorem from_hex_short {s : List Char} (h : (stripHash s).length < 6) :
    TextColour.from_hex s = none := by
  have h46 : sliceOpt (stripHash s) 4 6 = none := by
    simp only [sliceOpt, ite_eq_right_iff]
    omega
  unfold TextColour.from_hex
  cases h02 : sliceOpt (stripHash s) 0 2 with
  | none => simp [h02]
  | some rs =>
    cases hr : fromStrRadix16 rs with
    | none => simp [h02, hr]
    | some r =>
      cases h24 : sliceOpt (stripHash s) 2 4 with
      | none => simp [h02, hr, h24]
      | some gs =>
        cases hg : fromStrRadix16 gs with
        | none => simp [h02, hr, h24, hg]
        | some g => simp [h02, hr, h24, hg, h46]

theorem from_hex_with_alpha_short {s : List Char} (h : (stripHash s).length < 8) :
    TextColour.from_hex_with_alpha s = none := by
  have h68 : sliceOpt (stripHash s) 6 8 = none := by
    simp only [sliceOpt, ite_eq_right_iff]
    omega
  unfold TextColour.from_hex_with_alpha
  cases h02 : sliceOpt (stripHash s) 0 2 with
  | none => simp [h02]
  | some rs =>
    cases hr : fromStrRadix16 rs with
    | none => simp [h02, hr]
    | some r =>
      cases h24 : sliceOpt (stripHash s) 2 4 with
      | none => simp [h02, hr, h24]
      | some gs =>
        cases hg : fromStrRadix16 gs with
        | none => simp [h02, hr, h24, hg]
        | some g =>
          cases h46 : sliceOpt (stripHash s) 4 6 with
          | none => simp [h02, hr, h24, hg, h46]
          | some bs =>
            cases hb : fromStrRadix16 bs with
            | none => simp [h02, hr, h24, hg, h46, hb]
            | some b => simp [h02, hr, h24, hg, h46, hb, h68]

theorem from_hex_alpha {s : List Char} {c : TextColour}
    (h : TextColour.from_hex s = some c) : c.a = 255 := by
  unfold TextColour.from_hex at h
  simp only [bind, Option.bind_eq_some, Option.pure_def, Option.some_inj] at h
  obtain ⟨_, _, _, _, _, _, _, _, _, _, _, _, hc⟩ := h
  rw [← hc]

theorem from_hex_of_digits (s : List Char) (c0 c1 c2 c3 c4 c5 : Char)
    (rest : List Char) (v0 v1 v2 v3 v4 v5 : Nat)
    (hs : stripHash s = c0 :: c1 :: c2 :: c3 :: c4 :: c5 :: rest)
    (h0 : hexDigitVal c0 = some v0) (h1 : hexDigitVal c1 = some v1)
    (h2 : hexDigitVal c2 = some v2) (h3 : hexDigitVal c3 = some v3)
    (h4 : hexDigitVal c4 = some v4) (h5 : hexDigitVal c5 = some v5) :
    TextColour.from_hex s = some ⟨16 * v0 + v1, 16 * v2 + v3, 16 * v4 + v5, 255⟩ := by
  have h02 : sliceOpt (stripHash s) 0 2 = some [c0, c1] := by
    simp [sliceOpt, hs]
  have h24 : sliceOpt (stripHash s) 2 4 = some [c2, c3] := by
    simp [sliceOpt, hs]
  have h46 : sliceOpt (stripHash s) 4 6 = some [c4, c5] := by
    simp [sliceOpt, hs]
  simp [TextColour.from_hex, h02, h24, h46,
    fromStrRadix16_pair h0 h1, fromStrRadix16_pair h2 h3, fromStrRadix16_pair h4 h5]

theorem from_hex_with_alpha_of_digits (s : List Char)
    (c0 c1 c2 c3 c4 c5 c6 c7 : Char) (rest : List Char)
    (v0 v1 v2 v3 v4 v5 v6 v7 : Nat)
    (hs : stripHash s = c0 :: c1 :: c2 :: c3 :: c4 :: c5 :: c6 :: c7 :: rest)
    (h0 : hexDigitVal c0 = some v0) (h1 : hexDigitVal c1 = some v1)
    (h2 : hexDigitVal c2 = some v2) (h3 : hexDigitVal c3 = some v3)
    (h4 : hexDigitVal c4 = some v4) (h5 : hexDigitVal c5 = some v5)
    (h6 : hexDigitVal c6 = some v6) (h7 : hexDigitVal c7 = some v7) :
    TextColour.from_hex_with_alpha s =
      some ⟨16 * v0 + v1, 16 * v2 + v3, 16 * v4 + v5, 16 * v6 + v7⟩ := by
  have h02 : sliceOpt (stripHash s) 0 2 = some [c0, c1] := by
    simp [sliceOpt, hs]
  have h24 : sliceOpt (stripHash s) 2 4 = some [c2, c3] := by
    simp [sliceOpt, hs]
  have h46 : sliceOpt (stripHash s) 4 6 = some [c4, c5] := by
    simp [sliceOpt, hs]
  have h68 : sliceOpt (stripHash s) 6 8 = some [c6, c7] := by
    simp [sliceOpt, hs]
  simp [TextColour.from_hex_with_alpha, h02, h24, h46, h68,
    fromStrRadix16_pair h0 h1, fromStrRadix16_pair h2 h3,
    fromStrRadix16_pair h4 h5, fromStrRadix16_pair h6 h7]

/-- C7 counterexample: the claim says a non-hex digit in the channel slices
is a fatal construction error, but `u8::from_str_radix` accepts an optional
leading `+` sign per 2-character slice, so `from_hex("+1+2+3")` — whose
every channel slice contains the non-hex-digit `+` — succeeds with the
colour (1, 2, 3, 255). -/
theorem from_hex_plus_sign_leniency :
    TextColour.from_hex ("+1+2+3".toList) = some ⟨1, 2, 3, 255⟩ ∧
    hexDigitVal '+' = none := by
  constructor
  · decide
  · decide

/-- C7 (amended): `from_hex`/`from_hex_with_alpha` strip an optional
leading `#` and parse the channels from consecutive 2-character slices in
R,G,B[,A] order, `from_hex` defaulting alpha to 255; the stated examples
hold (`"#0A141E"` is opaque (10,20,30), `"0A141EFF"` with alpha is
(10,20,30,255), the 5-character `"0A141"` fails); fewer than 6
(respectively 8) characters after the `#` is a fatal error; and a
2-character slice parses successfully exactly when it is either two hex
digits or a `+` followed by one hex digit (the unsigned-parse leniency the
original claim missed). -/
theorem from_hex_parsing_spec :
    (TextColour.from_hex ("#0A141E".toList) = some ⟨10, 20, 30, 255⟩) ∧
    (TextColour.from_hex_with_alpha ("0A141EFF".toList) = some ⟨10, 20, 30, 255⟩) ∧
    (TextColour.from_hex ("0A141".toList) = none) ∧
    (∀ s : List Char, (stripHash s).length < 6 → TextColour.from_hex s = none) ∧
    (∀ s : List Char, (stripHash s).length < 8 →
      TextColour.from_hex_with_alpha s = none) ∧
    (∀ (s : List Char) (c : TextColour), TextColour.from_hex s = some c → c.a = 255) ∧
    (∀ a b : Char, (fromStrRadix16 [a, b]).isSome ↔
      (((hexDigitVal a).isSome ∧ (hexDigitVal b).isSome) ∨
        (a = '+' ∧ (hexDigitVal b).isSome))) :=
  ⟨by decide, by decide, by decide,
   fun _ h => from_hex_short h,
   fun _ h => from_hex_with_alpha_short h,
   fun _ _ h => from_hex_alpha h,
   fromStrRadix16_pair_isSome⟩

/-- Witness for C7: the short-input clause at the 2-character input "ab",
and the alpha-default clause at the successful example input. -/
theorem from_hex_parsing_spec_witness :
    TextColour.from_hex ("ab".toList) = none ∧
    (⟨10, 20, 30, 255⟩ : TextColour).a = 255 :=
  ⟨from_hex_parsing_spec.2.2.2.1 ("ab".toList) (by decide),
   from_hex_parsing_spec.2.2.2.2.2.1 ("#0A141E".toList) ⟨10, 20, 30, 255⟩
     from_hex_parsing_spec.1⟩

/-- C10: whenever the characters after the optional `#` begin with 6
(respectively 8) hex digits, parsing succeeds with the channel values read
from those digits alone — the trailing characters `rest` are arbitrary and
ignored; in particular `from_hex("0A141EFF")` succeeds as the opaque colour
(10, 20, 30) with alpha 255. -/
theorem from_hex_trailing_leniency :
    (∀ (s : List Char) (c0 c1 c2 c3 c4 c5 : Char) (rest : List Char)
        (v0 v1 v2 v3 v4 v5 : Nat),
      stripHash s = c0 :: c1 :: c2 :: c3 :: c4 :: c5 :: rest →
      hexDigitVal c0 = some v0 → hexDigitVal c1 = some v1 →
      hexDigitVal c2 = some v2 → hexDigitVal c3 = some v3 →
      hexDigitVal c4 = some v4 → hexDigitVal c5 = some v5 →
      TextColour.from_hex s = some ⟨16 * v0 + v1, 16 * v2 + v3, 16 * v4 + v5, 255⟩) ∧
    (∀ (s : List Char) (c0 c1 c2 c3 c4 c5 c6 c7 : Char) (rest : List Char)
        (v0 v1 v2 v3 v4 v5 v6 v7 : Nat),
      stripHash s = c0 :: c1 :: c2 :: c3 :: c4 :: c5 :: c6 :: c7 :: rest →
      hexDigitVal c0 = some v0 → hexDigitVal c1 = some v1 →
      hexDigitVal c2 = some v2 → hexDigitVal c3 = some v3 →
      hexDigitVal c4 = some v4 → hexDigitVal c5 = some v5 →
      hexDigitVal c6 = some v6 → hexDigitVal c7 = some v7 →
      TextColour.from_hex_with_alpha s =
        some ⟨16 * v0 + v1, 16 * v2 + v3, 16 * v4 + v5, 16 * v6 + v7⟩) ∧
    (TextColour.from_hex ("0A141EFF".toList) = some ⟨10, 20, 30, 255⟩) :=
  ⟨from_hex_of_digits, from_hex_with_alpha_of_digits, by decide⟩

/-- Witness for C10: the general clause applied at the concrete input
"0A141EZZ" — the two trailing non-hex characters are ignored. -/
theorem from_hex_trailing_leniency_witness :
    TextColour.from_hex ("0A141EZZ".toList) = some ⟨10, 20, 30, 255⟩ := by
  have h := from_hex_trailing_leniency.1 ("0A141EZZ".toList)
    '0' 'A' '1' '4' '1' 'E' ['Z', 'Z'] 0 10 1 4 1 14
    (by decide) (by decide) (by decide) (by decide) (by decide) (by decide) (by decide)
  simpa using h

theorem get_glyph_surface_traced_hit {K T : Type} [DecidableEq K]
    (frm : Nat → Nat → List Nat → TextColour → T) (r : TextRenderer K T)
    (g : GlyphPosition K) (w h : Nat) (c : TextColour) (e : List Nat × T)
    (hl : lookupEntry r (h % 65536) c g.parent = some e) :
    get_glyph_surface_traced frm r g w h c = (r, e.2, []) := by
  unfold lookupEntry at hl
  unfold get_glyph_surface_traced
  dsimp only
  split
  next entry heq =>
    rw [hl] at heq
    cases heq
    rfl
  next heq =>
    rw [hl] at heq
    cases heq

theorem get_glyph_surface_traced_miss {K T : Type} [DecidableEq K]
    (frm : Nat → Nat → List Nat → TextColour → T) (r : TextRenderer K T)
    (g : GlyphPosition K) (w h : Nat) (c : TextColour)
    (hl : lookupEntry r (h % 65536) c g.parent = none) :
    lookupEntry (get_glyph_surface_traced frm r g w h c).1 (h % 65536) c g.parent =
      some (cache_glyph r.font g c (fun d => frm w h d c)) ∧
    (get_glyph_surface_traced frm r g w h c).2.1 =
      (cache_glyph r.font g c (fun d => frm w h d c)).2 ∧
    (get_glyph_surface_traced frm r g w h c).2.2 = [g.key] := by
  unfold lookupEntry at hl
  unfold get_glyph_surface_traced
  dsimp only
  split
  next entry heq =>
    rw [hl] at heq
    cases heq
  next heq =>
    refine ⟨?_, rfl, rfl⟩
    unfold lookupEntry
    simp

theorem get_glyph_surface_traced_preserves {K T : Type} [DecidableEq K]
    (frm : Nat → Nat → List Nat → TextColour → T) (r : TextRenderer K T)
    (g : GlyphPosition K) (w h : Nat) (c : TextColour)
    (s2 : Nat) (c2 : TextColour) (ch2 : Char) (e : List Nat × T)
    (hl : lookupEntry r s2 c2 ch2 = some e) :
    lookupEntry (get_glyph_surface_traced frm r g w h c).1 s2 c2 ch2 = some e := by
  unfold get_glyph_surface_traced
  dsimp only
  split
  · exact hl
  next heq =>
    unfold lookupEntry at hl ⊢
    by_cases hs : s2 = h % 65536
    · subst hs
      by_cases hc : c2 = c
      · subst hc
        by_cases hch : ch2 = g.parent
        · subst hch
          rw [hl] at heq
          cases heq
        · simpa [hch] using hl
      · simpa [hc] using hl
    · simpa [hs] using hl

theorem get_glyph_surface_traced_populates {K T : Type} [DecidableEq K]
    (frm : Nat → Nat → List Nat → TextColour → T) (r : TextRenderer K T)
    (g : GlyphPosition K) (w h : Nat) (c : TextColour) :
    ∃ en : List Nat × T,
      lookupEntry (get_glyph_surface_traced frm r g w h c).1 (h % 65536) c g.parent =
        some en ∧
      (get_glyph_surface_traced frm r g w h c).2.1 = en.2 := by
  unfold get_glyph_surface_traced
  dsimp only
  split
  next entry heq =>
    refine ⟨entry, ?_, rfl⟩
    unfold lookupEntry
    exact heq
  next heq =>
    refine ⟨cache_glyph r.font g c (fun d => frm w h d c), ?_, rfl⟩
    unfold lookupEntry
    simp

theorem get_glyph_surface_hit {K T : Type} [DecidableEq K]
    (frm : Nat → Nat → List Nat → TextColour → T) (r : TextRenderer K T)
    (g : GlyphPosition K) (w h : Nat) (c : TextColour) (e : List Nat × T)
    (hl : lookupEntry r (h % 65536) c g.parent = some e) :
    get_glyph_surface frm r g w h c = (r, e.2) := by
  unfold get_glyph_surface
  rw [get_glyph_surface_traced_hit frm r g w h c e hl]

theorem get_glyph_surface_font_eq {K T : Type} [DecidableEq K]
    (frm : Nat → Nat → List Nat → TextColour → T) (r : TextRenderer K T)
    (g : GlyphPosition K) (w h : Nat) (c : TextColour) :
    (get_glyph_surface frm r g w h c).1.font = r.font := by
  unfold get_glyph_surface get_glyph_surface_traced
  dsimp only
  split
  · rfl
  · rfl

theorem get_glyph_surface_traced_preserves_vacant {K T : Type} [DecidableEq K]
    (frm : Nat → Nat → List Nat → TextColour → T) (r : TextRenderer K T)
    (g : GlyphPosition K) (w h : Nat) (c : TextColour)
    (s2 : Nat) (c2 : TextColour) (ch2 : Char) (hch : ch2 ≠ g.parent)
    (hl : lookupEntry r s2 c2 ch2 = none) :
    lookupEntry (get_glyph_surface_traced frm r g w h c).1 s2 c2 ch2 = none := by
  unfold get_glyph_surface_traced
  dsimp only
  split
  · exact hl
  next heq =>
    unfold lookupEntry at hl ⊢
    by_cases hs : s2 = h % 65536
    · subst hs
      by_cases hc : c2 = c
      · subst hc
        simpa [hch] using hl
      · simpa [hc] using hl
    · simpa [hs] using hl

theorem processRequests_preserves {K T : Type} [DecidableEq K]
    (frm : Nat → Nat → List Nat → TextColour → T)
    (reqs : List (GlyphPosition K × Nat × Nat × TextColour)) :
    ∀ (r : TextRenderer K T) (s2 : Nat) (c2 : TextColour) (ch2 : Char)
      (e : List Nat × T),
      lookupEntry r s2 c2 ch2 = some e →
      lookupEntry (processRequests frm r reqs) s2 c2 ch2 = some e := by
  induction reqs with
  | nil => intro r s2 c2 ch2 e hl; exact hl
  | cons q rest ih =>
    intro r s2 c2 ch2 e hl
    exact ih _ s2 c2 ch2 e
      (get_glyph_surface_traced_preserves frm r q.1 q.2.1 q.2.2.1 q.2.2.2 s2 c2 ch2 e hl)

/-- C1 (amended): cache idempotence holds per (rendered height mod 2^16,
colour, parent character) — the innermost cache key is the glyph's `parent`
character, not the opaque glyph identity.  For such a triple: (1) on a hit
the call returns the stored artifact's clone and leaves the renderer
(hence the stored bytes) entirely unchanged, with an empty rasterization
trace — neither the rasterizer nor the colourizer runs; (2) on a miss, one
rasterization of the glyph's raster config occurs and the freshly
colourized entry is stored and its artifact returned; (3) a stored entry
survives any further sequence of cache requests unchanged — stored bytes
are never mutated after insertion, so the rasterizer and colourizer run at
most once per distinct (height, colour, parent) triple. -/
theorem cache_idempotent_per_parent {K T : Type} [DecidableEq K]
    (frm : Nat → Nat → List Nat → TextColour → T) (r : TextRenderer K T)
    (g : GlyphPosition K) (w h : Nat) (c : TextColour) :
    (∀ e : List Nat × T, lookupEntry r (h % 65536) c g.parent = some e →
      get_glyph_surface frm r g w h c = (r, e.2) ∧
      get_glyph_surface_traced frm r g w h c = (r, e.2, [])) ∧
    (lookupEntry r (h % 65536) c g.parent = none →
      lookupEntry (get_glyph_surface frm r g w h c).1 (h % 65536) c g.parent =
        some (cache_glyph r.font g c (fun d => frm w h d c)) ∧
      (get_glyph_surface frm r g w h c).2 =
        (cache_glyph r.font g c (fun d => frm w h d c)).2 ∧
      (get_glyph_surface_traced frm r g w h c).2.2 = [g.key]) ∧
    (∀ (e : List Nat × T) (reqs : List (GlyphPosition K × Nat × Nat × TextColour)),
      lookupEntry r (h % 65536) c g.parent = some e →
      lookupEntry (processRequests frm r reqs) (h % 65536) c g.parent = some e) := by
  refine ⟨?_, ?_, ?_⟩
  · intro e hl
    exact ⟨get_glyph_surface_hit frm r g w h c e hl,
      get_glyph_surface_traced_hit frm r g w h c e hl⟩
  · intro hl
    exact get_glyph_surface_traced_miss frm r g w h c hl
  · intro e reqs hl
    exact processRequests_preserves frm reqs r _ _ _ e hl

/-- Witness for C1: over the concrete renderer, the second identical
request is a pure hit returning the artifact stored by the first, and the
stored entry survives two further (distinct) requests. -/
theorem cache_idempotent_per_parent_witness :
    get_glyph_surface exFrm (get_glyph_surface exFrm exRenderer exG1 1 1 exColour).1
        exG1 1 1 exColour =
      ((get_glyph_surface exFrm exRenderer exG1 1 1 exColour).1,
       (cache_glyph exRenderer.font exG1 exColour (fun d => exFrm 1 1 d exColour)).2) ∧
    lookupEntry
        (processRequests exFrm (get_glyph_surface exFrm exRenderer exG1 1 1 exColour).1
          [(exG2, 1, 1, exColour), (exG3, 1, 1, exColour)])
        (1 % 65536) exColour exG1.parent =
      some (cache_glyph exRenderer.font exG1 exColour (fun d => exFrm 1 1 d exColour)) := by
  have hmiss : lookupEntry exRenderer (1 % 65536) exColour exG1.parent = none := by decide
  have hpop := (cache_idempotent_per_parent exFrm exRenderer exG1 1 1 exColour).2.1 hmiss
  exact ⟨((cache_idempotent_per_parent exFrm
      (get_glyph_surface exFrm exRenderer exG1 1 1 exColour).1 exG1 1 1 exColour).1
      _ hpop.1).1,
    (cache_idempotent_per_parent exFrm
      (get_glyph_surface exFrm exRenderer exG1 1 1 exColour).1 exG1 1 1 exColour).2.2
      _ [(exG2, 1, 1, exColour), (exG3, 1, 1, exColour)] hpop.1⟩

/-- C1 counterexample: two glyph descriptors with the SAME raster config
(glyph identity), the same rendered height and the same colour, but
different parent characters (`exG1` is 'a', `exG3` is 'b' — e.g. two
characters both mapping to the .notdef glyph).  The first request
rasterizes the config; the second request for the very same (height,
colour, identity) triple rasterizes it AGAIN (non-empty trace) because the
cache keys on the parent character, and it was not a hit (no entry under
'b' beforehand, a second distinct entry afterwards) — refuting "the
rasterizer is invoked at most once per distinct triple / on a hit neither
is invoked" as stated over glyph identities. -/
theorem cache_identity_rasterize_twice :
    exG3.key = exG1.key ∧ exG3.height = exG1.height ∧ exG3.parent ≠ exG1.parent ∧
    (get_glyph_surface_traced exFrm exRenderer exG1 1 1 exColour).2.2 = [exG1.key] ∧
    (get_glyph_surface_traced exFrm
        (get_glyph_surface exFrm exRenderer exG1 1 1 exColour).1
        exG3 1 1 exColour).2.2 = [exG1.key] ∧
    lookupEntry (get_glyph_surface exFrm exRenderer exG1 1 1 exColour).1
        (1 % 65536) exColour exG3.parent = none ∧
    lookupEntry
        (get_glyph_surface exFrm (get_glyph_surface exFrm exRenderer exG1 1 1 exColour).1
          exG3 1 1 exColour).1
        (1 % 65536) exColour exG3.parent ≠ none := by
  exact ⟨rfl, rfl, by decide, by decide, by decide, by decide, by decide⟩

/-- C2 (amended): the innermost cache level is keyed by the glyph's parent
character, not the opaque glyph identity.  Starting from a bucket with no
entry for `g₁.parent`: a second request whose descriptor has the SAME
parent character (at the same rendered height and colour) shares the first
request's entry — it returns the stored artifact and leaves the renderer
unchanged, regardless of its own glyph identity; a second request with a
DIFFERENT parent character accumulates its own distinct entry, and both
entries then coexist.  So every distinct (rendered height mod 2^16, colour,
parent character) triple observed accumulates one entry. -/
theorem cache_keyed_by_parent_char {K T : Type} [DecidableEq K]
    (frm : Nat → Nat → List Nat → TextColour → T) (r : TextRenderer K T)
    (g₁ g₂ : GlyphPosition K) (w₁ w₂ h : Nat) (c : TextColour)
    (h₁ : lookupEntry r (h % 65536) c g₁.parent = none) :
    (g₂.parent = g₁.parent →
      get_glyph_surface frm (get_glyph_surface frm r g₁ w₁ h c).1 g₂ w₂ h c =
        ((get_glyph_surface frm r g₁ w₁ h c).1,
         (get_glyph_surface frm r g₁ w₁ h c).2)) ∧
    (g₂.parent ≠ g₁.parent → lookupEntry r (h % 65536) c g₂.parent = none →
      lookupEntry
          (get_glyph_surface frm (get_glyph_surface frm r g₁ w₁ h c).1 g₂ w₂ h c).1
          (h % 65536) c g₁.parent =
        some (cache_glyph r.font g₁ c (fun d => frm w₁ h d c)) ∧
      lookupEntry
          (get_glyph_surface frm (get_glyph_surface frm r g₁ w₁ h c).1 g₂ w₂ h c).1
          (h % 65536) c g₂.parent =
        some (cache_glyph r.font g₂ c (fun d => frm w₂ h d c))) := by
  obtain ⟨hp1, hp2, -⟩ := get_glyph_surface_traced_miss frm r g₁ w₁ h c h₁
  constructor
  · intro hpp
    have hl2 : lookupEntry (get_glyph_surface frm r g₁ w₁ h c).1 (h % 65536) c
        g₂.parent = some (cache_glyph r.font g₁ c (fun d => frm w₁ h d c)) := by
      rw [hpp]; exact hp1
    rw [get_glyph_surface_hit frm _ g₂ w₂ h c _ hl2]
    simp only [Prod.mk.injEq]
    exact ⟨trivial, hp2.symm⟩
  · intro hne h₂
    have h₂v : lookupEntry (get_glyph_surface frm r g₁ w₁ h c).1 (h % 65536) c
        g₂.parent = none :=
      get_glyph_surface_traced_preserves_vacant frm r g₁ w₁ h c _ _ _ hne h₂
    obtain ⟨hq1, hq2, -⟩ := get_glyph_surface_traced_miss frm
      (get_glyph_surface frm r g₁ w₁ h c).1 g₂ w₂ h c h₂v
    refine ⟨get_glyph_surface_traced_preserves frm _ g₂ w₂ h c _ _ _ _ hp1, ?_⟩
    rw [get_glyph_surface_font_eq frm r g₁ w₁ h c] at hq1
    exact hq1

/-- Witness for C2: concretely, a same-parent second request shares the
entry, and a different-parent second request creates its own entry. -/
theorem cache_keyed_by_parent_char_witness :
    get_glyph_surface exFrm (get_glyph_surface exFrm exRenderer exG1 1 1 exColour).1
        exG2 1 1 exColour =
      ((get_glyph_surface exFrm exRenderer exG1 1 1 exColour).1,
       (get_glyph_surface exFrm exRenderer exG1 1 1 exColour).2) ∧
    lookupEntry
        (get_glyph_surface exFrm (get_glyph_surface exFrm exRenderer exG1 1 1 exColour).1
          exG3 1 1 exColour).1
        (1 % 65536) exColour exG3.parent =
      some (cache_glyph exRenderer.font exG3 exColour (fun d => exFrm 1 1 d exColour)) :=
  ⟨(cache_keyed_by_parent_char exFrm exRenderer exG1 exG2 1 1 1 exColour (by decide)).1
      (by decide),
   ((cache_keyed_by_parent_char exFrm exRenderer exG1 exG3 1 1 1 exColour (by decide)).2
      (by decide) (by decide)).2⟩

/-- C2 counterexample: `exG1` and `exG2` are two DISTINCT glyph identities
(raster configs 0 and 1, with different rasterizations) sharing the parent
character 'a', at the same rendered height and colour.  They do not occupy
two distinct cache entries: the second request is served from the first
request's entry (same returned artifact, empty rasterization trace), and
its artifact is NOT the one its own rasterization would have produced. -/
theorem cache_identity_collision :
    exG1.key ≠ exG2.key ∧
    exFont.rasterize_config exG1.key ≠ exFont.rasterize_config exG2.key ∧
    (get_glyph_surface exFrm (get_glyph_surface exFrm exRenderer exG1 1 1 exColour).1
        exG2 1 1 exColour).2 =
      (get_glyph_surface exFrm exRenderer exG1 1 1 exColour).2 ∧
    (get_glyph_surface exFrm (get_glyph_surface exFrm exRenderer exG1 1 1 exColour).1
        exG2 1 1 exColour).2 ≠
      (cache_glyph exFont exG2 exColour (fun d => exFrm 1 1 d exColour)).2 ∧
    (get_glyph_surface_traced exFrm
        (get_glyph_surface exFrm exRenderer exG1 1 1 exColour).1
        exG2 1 1 exColour).2.2 = ([] : List Nat) := by
  exact ⟨by decide, by decide, by decide, by decide, by decide⟩

/-- C9: isolation across renderer instances.  Cloning a renderer copies
the cache store (the derived `Clone` deep-copies the `HashMap` field) while
sharing the font handle; populating the original's cache creates the new
entry there, and the clone's cache store is pointwise the pre-population
one — in particular the clone still has no entry at the populated key. -/
theorem renderer_clone_isolation {K T : Type} [DecidableEq K]
    (frm : Nat → Nat → List Nat → TextColour → T) (r : TextRenderer K T)
    (g : GlyphPosition K) (w h : Nat) (c : TextColour)
    (hl : lookupEntry r (h % 65536) c g.parent = none) :
    r.clone.font = r.font ∧
    (∀ (s2 : Nat) (c2 : TextColour) (ch2 : Char),
      lookupEntry r.clone s2 c2 ch2 = lookupEntry r s2 c2 ch2) ∧
    lookupEntry (get_glyph_surface frm r g w h c).1 (h % 65536) c g.parent =
      some (cache_glyph r.font g c (fun d => frm w h d c)) ∧
    lookupEntry r.clone (h % 65536) c g.parent = none :=
  ⟨rfl, fun _ _ _ => rfl, (get_glyph_surface_traced_miss frm r g w h c hl).1, hl⟩

/-- Witness for C9 at the concrete renderer. -/
theorem renderer_clone_isolation_witness :
    exRenderer.clone.font = exRenderer.font ∧
    (∀ (s2 : Nat) (c2 : TextColour) (ch2 : Char),
      lookupEntry exRenderer.clone s2 c2 ch2 = lookupEntry exRenderer s2 c2 ch2) ∧
    lookupEntry (get_glyph_surface exFrm exRenderer exG1 1 1 exColour).1
        (1 % 65536) exColour exG1.parent =
      some (cache_glyph exRenderer.font exG1 exColour (fun d => exFrm 1 1 d exColour)) ∧
    lookupEntry exRenderer.clone (1 % 65536) exColour exG1.parent = none :=
  renderer_clone_isolation exFrm exRenderer exG1 1 1 exColour (by decide)

theorem colourize_foldl_eq (cr cg cb : Nat) :
    ∀ (mask : List Nat) (acc : List Nat),
      mask.foldl (fun a pixel => a ++ [cr, cg, cb, pixel]) acc =
        acc ++ mask.flatMap (fun pixel => [cr, cg, cb, pixel])
  | [], acc => by simp
  | p :: rest, acc => by
    simp only [List.foldl_cons, List.flatMap_cons,
      colourize_foldl_eq cr cg cb rest (acc ++ [cr, cg, cb, p])]
    simp [List.append_assoc]

theorem flatMap4_length (cr cg cb : Nat) :
    ∀ mask : List Nat, (mask.flatMap (fun pixel => [cr, cg, cb, pixel])).length =
      4 * mask.length
  | [] => by simp
  | p :: rest => by
    simp [List.flatMap_cons, flatMap4_length cr cg cb rest]
    omega

theorem flatMap4_getElem (cr cg cb : Nat) :
    ∀ (mask : List Nat) (i : Nat), i < mask.length →
      ((mask.flatMap (fun pixel => [cr, cg, cb, pixel]))[4 * i]? = some cr ∧
       (mask.flatMap (fun pixel => [cr, cg, cb, pixel]))[4 * i + 1]? = some cg ∧
       (mask.flatMap (fun pixel => [cr, cg, cb, pixel]))[4 * i + 2]? = some cb ∧
       (mask.flatMap (fun pixel => [cr, cg, cb, pixel]))[4 * i + 3]? = mask[i]?)
  | [], i, hi => by simp at hi
  | p :: rest, 0, hi => by simp
  | p :: rest, i + 1, hi => by
    obtain ⟨h1, h2, h3, h4⟩ := flatMap4_getElem cr cg cb rest i (by simpa using hi)
    have hlen : ∀ o : Nat, ([cr, cg, cb, p] : List Nat).length ≤ 4 * (i + 1) + o := by
      intro o; simp; omega
    refine ⟨?_, ?_, ?_, ?_⟩
    · rw [List.flatMap_cons, List.getElem?_append_right (by simpa using hlen 0)]
      have : 4 * (i + 1) - ([cr, cg, cb, p] : List Nat).length = 4 * i := by simp; omega
      rw [this]; exact h1
    · rw [List.flatMap_cons, List.getElem?_append_right (by simpa using hlen 1)]
      have : 4 * (i + 1) + 1 - ([cr, cg, cb, p] : List Nat).length = 4 * i + 1 := by
        simp; omega
      rw [this]; exact h2
    · rw [List.flatMap_cons, List.getElem?_append_right (by simpa using hlen 2)]
      have : 4 * (i + 1) + 2 - ([cr, cg, cb, p] : List Nat).length = 4 * i + 2 := by
        simp; omega
      rw [this]; exact h3
    · rw [List.flatMap_cons, List.getElem?_append_right (by simpa using hlen 3)]
      have : 4 * (i + 1) + 3 - ([cr, cg, cb, p] : List Nat).length = 4 * i + 3 := by
        simp; omega
      rw [this, h4]
      simp

/-- C3: colourization correctness of `cache_glyph`.  The colourized buffer
has length exactly 4 times the coverage mask's length, and its `i`-th
4-byte group is `(colour.r, colour.g, colour.b, mask[i])` — the mask byte
becomes the alpha channel; in particular for mask `[0, 128, 255]` and
colour (10, 20, 30, 255) the result is
`[10,20,30,0, 10,20,30,128, 10,20,30,255]`. -/
theorem cache_glyph_colourize_spec {K T : Type} (font : Font K)
    (glyph : GlyphPosition K) (colour : TextColour) (make_t : List Nat → T) :
    ((cache_glyph font glyph colour make_t).1.length =
      4 * (font.rasterize_config glyph.key).length) ∧
    (∀ i, i < (font.rasterize_config glyph.key).length →
      ((cache_glyph font glyph colour make_t).1[4 * i]? = some colour.r ∧
       (cache_glyph font glyph colour make_t).1[4 * i + 1]? = some colour.g ∧
       (cache_glyph font glyph colour make_t).1[4 * i + 2]? = some colour.b ∧
       (cache_glyph font glyph colour make_t).1[4 * i + 3]? =
         (font.rasterize_config glyph.key)[i]?)) ∧
    ((cache_glyph (K := Unit) (T := List Nat) ⟨fun _ => [0, 128, 255]⟩
        ⟨(), 'x', 0, 0, 3, 1⟩ ⟨10, 20, 30, 255⟩ id).1 =
      [10, 20, 30, 0, 10, 20, 30, 128, 10, 20, 30, 255]) := by
  have heq : (cache_glyph font glyph colour make_t).1 =
      (font.rasterize_config glyph.key).flatMap
        (fun pixel => [colour.r, colour.g, colour.b, pixel]) := by
    unfold cache_glyph
    dsimp only
    rw [colourize_foldl_eq]
    simp
  refine ⟨?_, ?_, by decide⟩
  · rw [heq]; exact flatMap4_length colour.r colour.g colour.b _
  · intro i hi
    rw [heq]
    exact flatMap4_getElem colour.r colour.g colour.b _ i hi

/-- Witness for C3: the 4-byte-group clause evaluated at the concrete
3-byte mask of the example, group 1. -/
theorem cache_glyph_colourize_spec_witness :
    (cache_glyph (K := Unit) (T := List Nat) ⟨fun _ => [0, 128, 255]⟩
        ⟨(), 'x', 0, 0, 3, 1⟩ ⟨10, 20, 30, 255⟩ id).1[4 * 1 + 3]? = some 128 := by
  have h := ((cache_glyph_colourize_spec (K := Unit) (T := List Nat)
    ⟨fun _ => [0, 128, 255]⟩ ⟨(), 'x', 0, 0, 3, 1⟩ ⟨10, 20, 30, 255⟩ id).2.1
    1 (by decide)).2.2.2
  simpa using h

/-- C8: `load` returns the typed failure `FontNotFound` both when the font
file cannot be read and when the rasterizer cannot parse it — producing no
renderer in either case — and on success returns a renderer holding the
parsed font and an empty cache store.  There is a single read and a single
parse attempt: the outcome is fully determined by the one `read_file` and
`font_from_bytes` application shown in the hypotheses. -/
theorem load_error_spec {K T : Type} (read_file : String → Option (List Nat))
    (font_from_bytes : List Nat → Option (Font K)) (p : String) :
    (read_file p = none →
      load (K := K) (T := T) read_file font_from_bytes p =
        Except.error TextRendererError.FontNotFound) ∧
    (∀ bytes, read_file p = some bytes → font_from_bytes bytes = none →
      load (K := K) (T := T) read_file font_from_bytes p =
        Except.error TextRendererError.FontNotFound) ∧
    (∀ bytes font, read_file p = some bytes → font_from_bytes bytes = some font →
      load (K := K) (T := T) read_file font_from_bytes p =
        Except.ok { font := font, glyph_caches := fun _ => none }) := by
  refine ⟨?_, ?_, ?_⟩ <;> intros <;> simp [load, *]

/-- Witness for C8: the concrete one-file file system — the readable path
loads into a renderer with an empty cache, a missing path fails. -/
theorem load_error_spec_witness :
    load (K := Nat) (T := List Nat) exRead exParse "font.ttf" =
      Except.ok { font := exFont, glyph_caches := fun _ => none } ∧
    load (K := Nat) (T := List Nat) exRead exParse "missing.ttf" =
      Except.error TextRendererError.FontNotFound :=
  ⟨(load_error_spec exRead exParse "font.ttf").2.2 [1, 2, 3] exFont rfl rfl,
   (load_error_spec exRead exParse "missing.ttf").1 rfl⟩

theorem recOps_paste (s : RecSurface) (x y w h : Nat) (d : RecSurface) :
    recOps.paste s x y w h d = ⟨s.made, s.calls ++ [⟨x, y, w, h, d.made⟩]⟩ := rfl

theorem draw_go_preserves {K T : Type} [DecidableEq K] (ops : DrawableOps T)
    (x y : ℚ) (c : TextColour) :
    ∀ (glyphs : List (GlyphPosition K)) (st : TextRenderer K T × T)
      (s2 : Nat) (c2 : TextColour) (ch2 : Char) (e : List Nat × T),
      lookupEntry st.1 s2 c2 ch2 = some e →
      lookupEntry (draw_go ops x y c st glyphs).1 s2 c2 ch2 = some e
  | [], st, s2, c2, ch2, e, hl => hl
  | g :: rest, st, s2, c2, ch2, e, hl =>
    draw_go_preserves ops x y c rest _ s2 c2 ch2 e
      (get_glyph_surface_traced_preserves ops.from_raw_mask st.1 g g.width g.height c
        s2 c2 ch2 e hl)

theorem draw_monospaced_go_preserves {K T : Type} [DecidableEq K]
    (ops : DrawableOps T) (x y size : ℚ) (c : TextColour) :
    ∀ (glyphs : List (GlyphPosition K)) (st : TextRenderer K T × T) (i : Nat)
      (s2 : Nat) (c2 : TextColour) (ch2 : Char) (e : List Nat × T),
      lookupEntry st.1 s2 c2 ch2 = some e →
      lookupEntry (draw_monospaced_go ops x y size c st i glyphs).1 s2 c2 ch2 = some e
  | [], st, i, s2, c2, ch2, e, hl => hl
  | g :: rest, st, i, s2, c2, ch2, e, hl =>
    draw_monospaced_go_preserves ops x y size c rest _ (i + 1) s2 c2 ch2 e
      (get_glyph_surface_traced_preserves ops.from_raw_mask st.1 g g.width g.height c
        s2 c2 ch2 e hl)

theorem draw_go_spec {K : Type} [DecidableEq K] (x y : ℚ) (c : TextColour) :
    ∀ (glyphs : List (GlyphPosition K)) (r : TextRenderer K RecSurface)
      (m : Option (Nat × Nat × List Nat × TextColour)) (cs : List PasteCall),
      ((draw_go recOps x y c (r, ⟨m, cs⟩) glyphs).2.calls.length =
        cs.length + glyphs.length) ∧
      ((draw_go recOps x y c (r, ⟨m, cs⟩) glyphs).2.made = m) ∧
      (∀ j, j < cs.length →
        (draw_go recOps x y c (r, ⟨m, cs⟩) glyphs).2.calls[j]? = cs[j]?) ∧
      (∀ i g, glyphs[i]? = some g →
        ∃ art : RecSurface,
          (draw_go recOps x y c (r, ⟨m, cs⟩) glyphs).2.calls[cs.length + i]? =
            some ⟨ratToUsize (x + g.x), ratToUsize (y + g.y), g.width, g.height,
              art.made⟩ ∧
          ∃ bytes : List Nat,
            lookupEntry (draw_go recOps x y c (r, ⟨m, cs⟩) glyphs).1
              (g.height % 65536) c g.parent = some (bytes, art))
  | [], r, m, cs => by
    refine ⟨by simp [draw_go], rfl, ?_, ?_⟩
    · intro j hj
      rfl
    · intro i g hg
      simp at hg
  | g :: rest, r, m, cs => by
    obtain ⟨en, hen, henart⟩ :=
      get_glyph_surface_traced_populates recOps.from_raw_mask r g g.width g.height c
    simp only [draw_go, recOps_paste]
    have IH := draw_go_spec x y c rest
      (get_glyph_surface recOps.from_raw_mask r g g.width g.height c).1 m
      (cs ++ [⟨ratToUsize (x + g.x), ratToUsize (y + g.y), g.width, g.height,
        (get_glyph_surface recOps.from_raw_mask r g g.width g.height c).2.made⟩])
    refine ⟨?_, IH.2.1, ?_, ?_⟩
    · rw [IH.1]
      simp
      omega
    · intro j hj
      rw [IH.2.2.1 j (by simp; omega)]
      exact List.getElem?_append_left (by omega)
    · intro i g2 hg2
      match i, hg2 with
      | 0, hg2 =>
        have hg2' : g = g2 := by simpa using hg2
        subst hg2'
        refine ⟨(get_glyph_surface recOps.from_raw_mask r g g.width g.height c).2,
          ?_, en.1, ?_⟩
        · rw [Nat.add_zero, IH.2.2.1 cs.length (by simp)]
          exact List.getElem?_concat_length cs _
        · have hlook : lookupEntry
              (get_glyph_surface recOps.from_raw_mask r g g.width g.height c).1
              (g.height % 65536) c g.parent =
              some (en.1, (get_glyph_surface recOps.from_raw_mask r g g.width
                g.height c).2) := by
            rw [show (get_glyph_surface recOps.from_raw_mask r g g.width g.height
              c).2 = en.2 from henart]
            exact hen
          exact draw_go_preserves recOps x y c rest _ _ _ _ _ hlook
      | i + 1, hg2 =>
        have hg2' : rest[i]? = some g2 := by simpa using hg2
        obtain ⟨art, hcall, bytes, hlook⟩ := IH.2.2.2 i g2 hg2'
        refine ⟨art, ?_, bytes, hlook⟩
        have hidx : (cs ++ [⟨ratToUsize (x + g.x), ratToUsize (y + g.y), g.width,
            g.height, (get_glyph_surface recOps.from_raw_mask r g g.width g.height
              c).2.made⟩] : List PasteCall).length + i = cs.length + (i + 1) := by
          simp
          omega
        rw [hidx] at hcall
        exact hcall

theorem draw_monospaced_go_spec {K : Type} [DecidableEq K] (x y size : ℚ)
    (c : TextColour) :
    ∀ (glyphs : List (GlyphPosition K)) (r : TextRenderer K RecSurface)
      (m : Option (Nat × Nat × List Nat × TextColour)) (cs : List PasteCall)
      (i₀ : Nat),
      ((draw_monospaced_go recOps x y size c (r, ⟨m, cs⟩) i₀ glyphs).2.calls.length =
        cs.length + glyphs.length) ∧
      ((draw_monospaced_go recOps x y size c (r, ⟨m, cs⟩) i₀ glyphs).2.made = m) ∧
      (∀ j, j < cs.length →
        (draw_monospaced_go recOps x y size c (r, ⟨m, cs⟩) i₀ glyphs).2.calls[j]? =
          cs[j]?) ∧
      (∀ i g, glyphs[i]? = some g →
        ∃ art : RecSurface,
          (draw_monospaced_go recOps x y size c (r, ⟨m, cs⟩) i₀
              glyphs).2.calls[cs.length + i]? =
            some ⟨ratToUsize (x + size / 2 * ((i₀ + i : Nat) : ℚ)),
              ratToUsize (y + g.y), ratToUsize (size / 2), g.height, art.made⟩ ∧
          ∃ bytes : List Nat,
            lookupEntry (draw_monospaced_go recOps x y size c (r, ⟨m, cs⟩) i₀ glyphs).1
              (g.height % 65536) c g.parent = some (bytes, art))
  | [], r, m, cs, i₀ => by
    refine ⟨by simp [draw_monospaced_go], rfl, ?_, ?_⟩
    · intro j hj
      rfl
    · intro i g hg
      simp at hg
  | g :: rest, r, m, cs, i₀ => by
    obtain ⟨en, hen, henart⟩ :=
      get_glyph_surface_traced_populates recOps.from_raw_mask r g g.width g.height c
    simp only [draw_monospaced_go, recOps_paste]
    have IH := draw_monospaced_go_spec x y size c rest
      (get_glyph_surface recOps.from_raw_mask r g g.width g.height c).1 m
      (cs ++ [⟨ratToUsize (x + size / 2 * (i₀ : ℚ)), ratToUsize (y + g.y),
        ratToUsize (size / 2), g.height,
        (get_glyph_surface recOps.from_raw_mask r g g.width g.height c).2.made⟩])
      (i₀ + 1)
    refine ⟨?_, IH.2.1, ?_, ?_⟩
    · rw [IH.1]
      simp
      omega
    · intro j hj
      rw [IH.2.2.1 j (by simp; omega)]
      exact List.getElem?_append_left (by omega)
    · intro i g2 hg2
      match i, hg2 with
      | 0, hg2 =>
        have hg2' : g = g2 := by simpa using hg2
        subst hg2'
        refine ⟨(get_glyph_surface recOps.from_raw_mask r g g.width g.height c).2,
          ?_, en.1, ?_⟩
        · simp only [Nat.add_zero]
          rw [IH.2.2.1 cs.length (by simp)]
          exact List.getElem?_concat_length cs _
        · have hlook : lookupEntry
              (get_glyph_surface recOps.from_raw_mask r g g.width g.height c).1
              (g.height % 65536) c g.parent =
              some (en.1, (get_glyph_surface recOps.from_raw_mask r g g.width
                g.height c).2) := by
            rw [show (get_glyph_surface recOps.from_raw_mask r g g.width g.height
              c).2 = en.2 from henart]
            exact hen
          exact draw_monospaced_go_preserves recOps x y size c rest _ (i₀ + 1)
            _ _ _ _ hlook
      | i + 1, hg2 =>
        have hg2' : rest[i]? = some g2 := by simpa using hg2
        obtain ⟨art, hcall, bytes, hlook⟩ := IH.2.2.2 i g2 hg2'
        refine ⟨art, ?_, bytes, hlook⟩
        have hidx : (cs ++ [⟨ratToUsize (x + size / 2 * (i₀ : ℚ)),
            ratToUsize (y + g.y), ratToUsize (size / 2), g.height,
            (get_glyph_surface recOps.from_raw_mask r g g.width g.height
              c).2.made⟩] : List PasteCall).length + i = cs.length + (i + 1) := by
          simp
          omega
        rw [hidx] at hcall
        rw [show ((i₀ + 1 + i : Nat) : ℚ) = ((i₀ + (i + 1) : Nat) : ℚ) by
          push_cast; ring] at hcall
        exact hcall

/-- C6: proportional draw placement.  Observed through the recording
surface, `draw_string` performs exactly one paste per positioned glyph
descriptor, in layout order; the i-th paste is at
`((x + gᵢ.x) as usize, (y + gᵢ.y) as usize)` with the descriptor's
rasterized width and height, and the pasted artifact is exactly the one
held by the renderer's cache (fetched or freshly populated during that
step) under the bucket keyed by the descriptor's rasterized height
(`height as u16`), the colour, and the glyph's parent character. -/
theorem draw_string_paste_spec {K : Type} [DecidableEq K]
    (r : TextRenderer K RecSurface) (x y size : ℚ) (c : TextColour)
    (glyphs : List (GlyphPosition K)) :
    ((draw_string recOps r x y size c ⟨none, []⟩ glyphs).2.calls.length =
      glyphs.length) ∧
    (∀ (i : Nat) (g : GlyphPosition K), glyphs[i]? = some g →
      ∃ art : RecSurface,
        (draw_string recOps r x y size c ⟨none, []⟩ glyphs).2.calls[i]? =
          some ⟨ratToUsize (x + g.x), ratToUsize (y + g.y), g.width, g.height,
            art.made⟩ ∧
        ∃ bytes : List Nat,
          lookupEntry (draw_string recOps r x y size c ⟨none, []⟩ glyphs).1
            (g.height % 65536) c g.parent = some (bytes, art)) := by
  have h := draw_go_spec x y c glyphs r none []
  refine ⟨by simpa using h.1, ?_⟩
  intro i g hg
  have h2 := h.2.2.2 i g hg
  simpa using h2

/-- Witness for C6 at a two-glyph layout. -/
theorem draw_string_paste_spec_witness :
    ∃ art : RecSurface,
      (draw_string recOps exRendererR 3 2 24 exColour ⟨none, []⟩
          [exGA, exGB]).2.calls[0]? =
        some ⟨ratToUsize (3 + exGA.x), ratToUsize (2 + exGA.y), exGA.width,
          exGA.height, art.made⟩ ∧
      ∃ bytes : List Nat,
        lookupEntry (draw_string recOps exRendererR 3 2 24 exColour ⟨none, []⟩
            [exGA, exGB]).1
          (exGA.height % 65536) exColour exGA.parent = some (bytes, art) :=
  (draw_string_paste_spec exRendererR 3 2 24 exColour [exGA, exGB]).2 0 exGA rfl

/-- C5: monospaced spacing.  `draw_string_monospaced` runs the same cache
path as `draw_string` (same per-descriptor cache request with the
rasterized width/height) over the same layout descriptor, but pastes the
i-th glyph (0-indexed, in layout order) at x-offset
`(x + (size/2)*i) as usize` with forced paste width `(size/2) as usize`,
the vertical position `(y + gᵢ.y) as usize` and the rasterized height;
for size 24 the i-th x-offset is `(x + 12*i) as usize` regardless of the
descriptors' natural advance positions. -/
theorem draw_string_monospaced_spec {K : Type} [DecidableEq K]
    (r : TextRenderer K RecSurface) (x y size : ℚ) (c : TextColour)
    (glyphs : List (GlyphPosition K)) :
    ((draw_string_monospaced recOps r x y size c ⟨none, []⟩ glyphs).2.calls.length =
      glyphs.length) ∧
    (∀ (i : Nat) (g : GlyphPosition K), glyphs[i]? = some g →
      ∃ art : RecSurface,
        (draw_string_monospaced recOps r x y size c ⟨none, []⟩ glyphs).2.calls[i]? =
          some ⟨ratToUsize (x + size / 2 * ((i : Nat) : ℚ)), ratToUsize (y + g.y),
            ratToUsize (size / 2), g.height, art.made⟩ ∧
        (size = 24 →
          ratToUsize (x + size / 2 * ((i : Nat) : ℚ)) =
            ratToUsize (x + 12 * ((i : Nat) : ℚ))) ∧
        ∃ bytes : List Nat,
          lookupEntry (draw_string_monospaced recOps r x y size c ⟨none, []⟩ glyphs).1
            (g.height % 65536) c g.parent = some (bytes, art)) := by
  have h := draw_monospaced_go_spec x y size c glyphs r none [] 0
  refine ⟨by simpa using h.1, ?_⟩
  intro i g hg
  obtain ⟨art, hcall, bytes, hlook⟩ := h.2.2.2 i g hg
  refine ⟨art, ?_, ?_, bytes, hlook⟩
  · simpa using hcall
  · intro h24
    subst h24
    norm_num

/-- Witness for C5 at a two-glyph layout with size 24: the second glyph
(index 1) is pasted at x-offset `(3 + 12*1) as usize` with width 12. -/
theorem draw_string_monospaced_spec_witness :
    ∃ art : RecSurface,
      (draw_string_monospaced recOps exRendererR 3 2 24 exColour ⟨none, []⟩
          [exGA, exGB]).2.calls[1]? =
        some ⟨ratToUsize (3 + 24 / 2 * ((1 : Nat) : ℚ)), ratToUsize (2 + exGB.y),
          ratToUsize (24 / 2), exGB.height, art.made⟩ ∧
      ((24 : ℚ) = 24 →
        ratToUsize (3 + 24 / 2 * ((1 : Nat) : ℚ)) =
          ratToUsize (3 + 12 * ((1 : Nat) : ℚ))) ∧
      ∃ bytes : List Nat,
        lookupEntry (draw_string_monospaced recOps exRendererR 3 2 24 exColour
            ⟨none, []⟩ [exGA, exGB]).1
          (exGB.height % 65536) exColour exGB.parent = some (bytes, art) :=
  (draw_string_monospaced_spec exRendererR 3 2 24 exColour [exGA, exGB]).2 1 exGB rfl

theorem paste_cells_flat (dstW dstH srcW srcH : Nat) (srcData : List Nat) :
    ∀ (k : Nat) (buf : List Nat) (ix dx : Int),
      (List.range k).foldl (fun s _ => pasteCell dstW dstH srcW srcH srcData s)
          (buf, ix, dx) =
        ((List.range k).foldl
            (fun (b : List Nat) (c2 : Nat) => cellWrite dstW dstH srcW srcH srcData b
              (ix + 4 * (c2 : Int)) (dx + 4 * (c2 : Int))) buf,
         ix + 4 * (k : Int), dx + 4 * (k : Int))
  | 0, buf, ix, dx => by simp
  | k + 1, buf, ix, dx => by
    rw [List.range_succ, List.foldl_append, List.foldl_append]
    rw [paste_cells_flat dstW dstH srcW srcH srcData k buf ix dx]
    simp only [List.foldl_cons, List.foldl_nil, pasteCell, Prod.mk.injEq]
    refine ⟨by trivial, by push_cast; ring, by push_cast; ring⟩

theorem paste_row_flat (dstW dstH srcW srcH width : Nat) (srcData : List Nat)
    (buf : List Nat) (ix dx : Int) :
    pasteRow dstW dstH srcW srcH width srcData (buf, ix, dx) =
      ((List.range width).foldl
          (fun (b : List Nat) (c2 : Nat) => cellWrite dstW dstH srcW srcH srcData b
            (ix + 4 * (c2 : Int)) (dx + 4 * (c2 : Int))) buf,
       ix + (dstW : Int) * 4, dx + (srcW : Int) * 4) := by
  unfold pasteRow
  rw [paste_cells_flat dstW dstH srcW srcH srcData width buf ix dx]
  simp only [Prod.mk.injEq]
  refine ⟨by trivial, by push_cast; ring, by push_cast; ring⟩

theorem paste_rows_flat (dstW dstH srcW srcH width : Nat) (srcData : List Nat) :
    ∀ (n : Nat) (buf : List Nat) (ix dx : Int),
      (List.range n).foldl
          (fun st _ => pasteRow dstW dstH srcW srcH width srcData st) (buf, ix, dx) =
        ((List.range n).foldl
            (fun (b : List Nat) (r : Nat) =>
              (List.range width).foldl
                (fun (b2 : List Nat) (c2 : Nat) => cellWrite dstW dstH srcW srcH srcData b2
                  ((ix + (r : Int) * ((dstW : Int) * 4)) + 4 * (c2 : Int))
                  ((dx + (r : Int) * ((srcW : Int) * 4)) + 4 * (c2 : Int))) b) buf,
         ix + (n : Int) * ((dstW : Int) * 4), dx + (n : Int) * ((srcW : Int) * 4))
  | 0, buf, ix, dx => by simp
  | n + 1, buf, ix, dx => by
    rw [List.range_succ, List.foldl_append, List.foldl_append]
    rw [paste_rows_flat dstW dstH srcW srcH width srcData n buf ix dx]
    simp only [List.foldl_cons, List.foldl_nil]
    rw [paste_row_flat]
    simp only [Prod.mk.injEq]
    refine ⟨by trivial, by push_cast; ring, by push_cast; ring⟩

theorem cellWrite_toNat (dstW dstH srcW srcH : Nat) (srcData : List Nat)
    (buf : List Nat) (dpix spix : Nat) :
    cellWrite dstW dstH srcW srcH srcData buf ((4 * dpix : Nat) : Int)
        ((4 * spix : Nat) : Int) =
      if dstW * dstH ≤ dpix ∨ srcW * srcH ≤ spix then buf
      else write4 buf (4 * dpix) srcData (4 * spix) := by
  unfold cellWrite
  rw [show ((dstW : Int) * (dstH : Int) * 4) = ((dstW * dstH * 4 : Nat) : Int) from by
        push_cast; ring,
      show ((srcW : Int) * (srcH : Int) * 4) = ((srcW * srcH * 4 : Nat) : Int) from by
        push_cast; ring]
  by_cases hw : dstW * dstH ≤ dpix ∨ srcW * srcH ≤ spix
  · rw [if_pos hw, if_pos]
    rcases hw with hw | hw
    · refine Or.inr (Or.inl ?_)
      rw [Nat.cast_le]
      generalize hP : dstW * dstH = P at *
      omega
    · refine Or.inr (Or.inr (Or.inr ?_))
      rw [Nat.cast_le]
      generalize hQ : srcW * srcH = Q at *
      omega
  · rw [if_neg hw, if_neg]
    · have h1 : ((4 : Int) * (dpix : Int)).toNat = 4 * dpix := by omega
      have h2 : ((4 : Int) * (spix : Int)).toNat = 4 * spix := by omega
      simp [h1, h2]
    · push_neg at hw
      rw [not_or, not_or, not_or]
      refine ⟨by omega, ?_, by omega, ?_⟩
      · rw [not_le, Nat.cast_lt]
        generalize hP : dstW * dstH = P at *
        omega
      · rw [not_le, Nat.cast_lt]
        generalize hQ : srcW * srcH = Q at *
        omega

theorem cellWrite_eq_writeStep (dstW dstH srcW srcH x y : Nat) (srcData : List Nat)
    (buf : List Nat) (rc : Nat × Nat) (ix dx : Int)
    (hix : ix = ((4 * dstPixIdx dstW x y rc : Nat) : Int))
    (hdx : dx = ((4 * srcPixIdx srcW rc : Nat) : Int)) :
    cellWrite dstW dstH srcW srcH srcData buf ix dx =
      writeStep dstW dstH srcW srcH x y srcData buf rc := by
  subst hix
  subst hdx
  rw [cellWrite_toNat]
  rfl

theorem paste_data_eq (dst src : TestSurface) (x y w h : Nat) :
    (dst.paste x y w h src).data =
      (List.range h).foldl
        (fun (b : List Nat) (r : Nat) =>
          (List.range w).foldl
            (fun (b2 : List Nat) (c2 : Nat) =>
              writeStep dst.width dst.height src.width src.height x y src.data b2 (r, c2))
            b)
        dst.data := by
  unfold TestSurface.paste
  rw [paste_rows_flat dst.width dst.height src.width src.height w src.data h dst.data]
  dsimp only
  refine List.foldl_ext _ _ _ ?_
  intro b r hr
  refine List.foldl_ext _ _ _ ?_
  intro b2 c2 hc2
  refine cellWrite_eq_writeStep dst.width dst.height src.width src.height x y src.data
    b2 (r, c2) _ _ ?_ ?_
  · unfold dstPixIdx
    push_cast
    ring
  · unfold srcPixIdx
    push_cast
    ring

theorem foldl_flatMap {α β γ : Type} (g : α → List β) (f : γ → β → γ) :
    ∀ (l : List α) (i : γ),
      (l.flatMap g).foldl f i = l.foldl (fun acc a => (g a).foldl f acc) i
  | [], i => rfl
  | a :: rest, i => by
    rw [List.flatMap_cons, List.foldl_append, List.foldl_cons]
    exact foldl_flatMap g f rest _

theorem foldl_pixList (f : List Nat → Nat × Nat → List Nat) (hh ww : Nat)
    (init : List Nat) :
    (pixList hh ww).foldl f init =
      (List.range hh).foldl
        (fun (b : List Nat) (r : Nat) =>
          (List.range ww).foldl (fun (b2 : List Nat) (c2 : Nat) => f b2 (r, c2)) b)
        init := by
  unfold pixList
  rw [foldl_flatMap]
  refine List.foldl_ext _ _ _ ?_
  intro b r hr
  rw [List.foldl_map]

theorem paste_data_eq_pixList (dst src : TestSurface) (x y w h : Nat) :
    (dst.paste x y w h src).data =
      (pixList h w).foldl
        (writeStep dst.width dst.height src.width src.height x y src.data) dst.data := by
  rw [paste_data_eq, foldl_pixList]

theorem write4_length (buf : List Nat) (i : Nat) (src : List Nat) (j : Nat) :
    (write4 buf i src j).length = buf.length := by
  simp [write4]

theorem writeStep_length (dstW dstH srcW srcH x y : Nat) (srcData : List Nat)
    (b : List Nat) (rc : Nat × Nat) :
    (writeStep dstW dstH srcW srcH x y srcData b rc).length = b.length := by
  unfold writeStep
  split
  · rfl
  · exact write4_length b _ srcData _

theorem foldl_writeStep_length (dstW dstH srcW srcH x y : Nat) (srcData : List Nat) :
    ∀ (L : List (Nat × Nat)) (b : List Nat),
      (L.foldl (writeStep dstW dstH srcW srcH x y srcData) b).length = b.length
  | [], b => rfl
  | rc :: rest, b => by
    rw [List.foldl_cons, foldl_writeStep_length dstW dstH srcW srcH x y srcData rest]
    exact writeStep_length dstW dstH srcW srcH x y srcData b rc

theorem write4_getElem_ne (buf : List Nat) (i : Nat) (src : List Nat) (j p : Nat)
    (h0 : p ≠ i) (h1 : p ≠ i + 1) (h2 : p ≠ i + 2) (h3 : p ≠ i + 3) :
    (write4 buf i src j)[p]? = buf[p]? := by
  unfold write4
  rw [List.getElem?_set_ne (by omega), List.getElem?_set_ne (by omega),
    List.getElem?_set_ne (by omega), List.getElem?_set_ne (by omega)]

theorem write4_getElem_at (buf : List Nat) (i : Nat) (src : List Nat) (j o : Nat)
    (ho : o < 4) (hlen : i + 3 < buf.length) :
    (write4 buf i src j)[i + o]? = some (src.getD (j + o) 0) := by
  unfold write4
  interval_cases o
  · rw [List.getElem?_set_ne (by omega), List.getElem?_set_ne (by omega),
      List.getElem?_set_ne (by omega), Nat.add_zero, Nat.add_zero]
    exact List.getElem?_set_eq_of_lt _ (by omega)
  · rw [List.getElem?_set_ne (by omega), List.getElem?_set_ne (by omega)]
    exact List.getElem?_set_eq_of_lt _ (by simp [List.length_set]; omega)
  · rw [List.getElem?_set_ne (by omega)]
    exact List.getElem?_set_eq_of_lt _ (by simp [List.length_set]; omega)
  · exact List.getElem?_set_eq_of_lt _ (by simp [List.length_set]; omega)

theorem foldl_writeStep_untouched (dstW dstH srcW srcH x y : Nat) (srcData : List Nat) :
    ∀ (L : List (Nat × Nat)) (b : List Nat) (p : Nat),
      (∀ rc ∈ L, dstPixIdx dstW x y rc < dstW * dstH →
        srcPixIdx srcW rc < srcW * srcH →
        p < 4 * dstPixIdx dstW x y rc ∨ 4 * dstPixIdx dstW x y rc + 4 ≤ p) →
      (L.foldl (writeStep dstW dstH srcW srcH x y srcData) b)[p]? = b[p]?
  | [], b, p, hout => rfl
  | rc :: rest, b, p, hout => by
    rw [List.foldl_cons,
      foldl_writeStep_untouched dstW dstH srcW srcH x y srcData rest _ p
        (fun rc2 h2 => hout rc2 (List.mem_cons_of_mem rc h2))]
    unfold writeStep
    split
    · rfl
    next hcond =>
      push_neg at hcond
      have hrange := hout rc (List.mem_cons_self rc rest) hcond.1 hcond.2
      exact write4_getElem_ne b _ srcData _ p (by omega) (by omega) (by omega) (by omega)

theorem foldl_writeStep_value (dstW dstH srcW srcH x y : Nat) (srcData : List Nat) :
    ∀ (L : List (Nat × Nat)) (b : List Nat) (rc : Nat × Nat),
      L.Nodup → rc ∈ L →
      dstPixIdx dstW x y rc < dstW * dstH →
      srcPixIdx srcW rc < srcW * srcH →
      4 * dstPixIdx dstW x y rc + 3 < b.length →
      (∀ rc2 ∈ L, rc2 ≠ rc →
        dstPixIdx dstW x y rc2 < dstW * dstH →
        srcPixIdx srcW rc2 < srcW * srcH →
        dstPixIdx dstW x y rc2 ≠ dstPixIdx dstW x y rc) →
      ∀ o, o < 4 →
        (L.foldl (writeStep dstW dstH srcW srcH x y srcData)
            b)[4 * dstPixIdx dstW x y rc + o]? =
          some (srcData.getD (4 * srcPixIdx srcW rc + o) 0)
  | [], b, rc, hnd, hmem, _, _, _, _, o, ho => by simp at hmem
  | a :: rest, b, rc, hnd, hmem, hdp, hsp, hlen, huniq, o, ho => by
    rw [List.foldl_cons]
    by_cases hrc : a = rc
    · subst hrc
      have hnotin : a ∉ rest := (List.nodup_cons.1 hnd).1
      rw [foldl_writeStep_untouched dstW dstH srcW srcH x y srcData rest _ _ ?hout]
      case hout =>
        intro rc2 hrc2 hd2 hs2
        have hne : rc2 ≠ a := fun hh => hnotin (hh ▸ hrc2)
        have := huniq rc2 (List.mem_cons_of_mem a hrc2) hne hd2 hs2
        rcases Nat.lt_or_ge (dstPixIdx dstW x y rc2) (dstPixIdx dstW x y a) with hlt | hge
        · right; omega
        · left; omega
      unfold writeStep
      rw [if_neg (by push_neg; exact ⟨hdp, hsp⟩)]
      exact write4_getElem_at b _ srcData _ o ho hlen
    · have hmem2 : rc ∈ rest := by
        rcases List.mem_cons.1 hmem with hh | hh
        · exact absurd hh.symm hrc
        · exact hh
      exact foldl_writeStep_value dstW dstH srcW srcH x y srcData rest _ rc
        (List.nodup_cons.1 hnd).2 hmem2 hdp hsp
        (by rw [writeStep_length]; exact hlen)
        (fun rc2 h2 => huniq rc2 (List.mem_cons_of_mem a h2)) o ho

theorem pixList_mem (hh ww : Nat) (rc : Nat × Nat) :
    rc ∈ pixList hh ww ↔ rc.1 < hh ∧ rc.2 < ww := by
  obtain ⟨r0, c0⟩ := rc
  unfold pixList
  simp [List.mem_flatMap, List.mem_map, List.mem_range]

theorem pixList_nodup (ww : Nat) : ∀ hh : Nat, (pixList hh ww).Nodup
  | 0 => by simp [pixList]
  | n + 1 => by
    unfold pixList
    rw [List.range_succ, List.flatMap_append]
    refine List.Nodup.append ?_ ?_ ?_
    · exact pixList_nodup ww n
    · simp only [List.flatMap_cons, List.flatMap_nil, List.append_nil]
      refine List.Nodup.map ?_ (List.nodup_range ww)
      intro a b hab
      simpa using hab
    · intro a h1 h2
      have ha1 : a.1 < n := ((pixList_mem n ww a).1 h1).1
      simp only [List.flatMap_cons, List.flatMap_nil, List.append_nil,
        List.mem_map, List.mem_range] at h2
      obtain ⟨c1, hc1, he⟩ := h2
      rw [← he] at ha1
      simp at ha1

/-- C4 (amended): paste clipping.  `TestSurface::paste` copies the
`width × height` block row-major; a block cell `(r, c)` addresses
destination byte `4*dstPixIdx` and source byte `4*srcPixIdx` (the cursors
advance over skipped cells exactly as over copied ones), a cell is copied
precisely when both linear pixel indices lie inside their buffers
(`dstPixIdx < dstW*dstH` and `srcPixIdx < srcW*srcH`), and an
out-of-bounds cell is skipped silently without aborting the blit: bytes
not covered by any copied cell are left unchanged, a byte covered by a
unique copied cell receives the corresponding source byte, all accesses
stay inside the buffers, and the result keeps the destination's
dimensions and buffer length.  The coordinates are unsigned (`usize`), so
the negative position of the original claim is not expressible — see the
counterexample.

The `< 2^31` hypotheses bound every `i32` value of the source, making the
exact integer model faithful (no wrap in release, no overflow panic in
debug).  Coverage: `h32a`/`h32b` bound the two `(width*height*4) as i32`
bound constants (so the `usize` products and casts are exact), `h32p` the
pitch `self.width as i32 * 4`, `h32q` the pitch `data.width as i32 * 4`
(each also making the `as i32` cast of the width exact).  The destination
cursor starts at `y*pitch + x*4`, reaches at most
`(y + h - 1)*pitch + x*4 + w*4` inside the last row (the `+= 4` after the
final cell) and ends at `(y + h)*pitch + x*4`, all bounded by `h32c`,
whose summands `x*4` and `w*4` also bound the `x as i32 * 4` start term
and the `width as i32 * 4` row-adjustment term; `y as i32 * pitch` is
bounded by `h32c` when `dst.width > 0`, and is `0` on both sides when
`dst.width = 0` (an `as` cast never panics, and the wrapped value is then
multiplied by a zero pitch).  The source cursor spans `r*data_pitch` to
`r*data_pitch + w*4` in row `r` and ends at `h*data_pitch`, bounded by
`h32d`.  The row adjustments `pitch - width*4` and `data_pitch - width*4`
subtract two values in `[0, 2^31)`, so they cannot overflow, and both
cursors stay non-negative throughout.  The length hypotheses are the
buffer-layout invariant under which the source's unchecked vector
indexing cannot panic. -/
theorem paste_clipping_spec (dst src : TestSurface) (x y w h : Nat)
    (hd : dst.data.length = dst.width * dst.height * 4)
    (hs : src.data.length = src.width * src.height * 4)
    (h32a : dst.width * dst.height * 4 < 2147483648)
    (h32b : src.width * src.height * 4 < 2147483648)
    (h32p : dst.width * 4 < 2147483648)
    (h32q : src.width * 4 < 2147483648)
    (h32c : (y + h) * dst.width * 4 + x * 4 + w * 4 < 2147483648)
    (h32d : h * src.width * 4 + w * 4 < 2147483648) :
    ((dst.paste x y w h src).width = dst.width) ∧
    ((dst.paste x y w h src).height = dst.height) ∧
    ((dst.paste x y w h src).data.length = dst.data.length) ∧
    (∀ p : Nat,
      (∀ r c2 : Nat, r < h → c2 < w →
        dstPixIdx dst.width x y (r, c2) < dst.width * dst.height →
        srcPixIdx src.width (r, c2) < src.width * src.height →
        p < 4 * dstPixIdx dst.width x y (r, c2) ∨
          4 * dstPixIdx dst.width x y (r, c2) + 4 ≤ p) →
      (dst.paste x y w h src).data[p]? = dst.data[p]?) ∧
    (∀ r c2 : Nat, r < h → c2 < w →
      dstPixIdx dst.width x y (r, c2) < dst.width * dst.height →
      srcPixIdx src.width (r, c2) < src.width * src.height →
      (∀ r2 c3 : Nat, r2 < h → c3 < w → (r2, c3) ≠ (r, c2) →
        dstPixIdx dst.width x y (r2, c3) < dst.width * dst.height →
        srcPixIdx src.width (r2, c3) < src.width * src.height →
        dstPixIdx dst.width x y (r2, c3) ≠ dstPixIdx dst.width x y (r, c2)) →
      4 * dstPixIdx dst.width x y (r, c2) + 3 < dst.data.length ∧
      4 * srcPixIdx src.width (r, c2) + 3 < src.data.length ∧
      ∀ o, o < 4 →
        (dst.paste x y w h src).data[4 * dstPixIdx dst.width x y (r, c2) + o]? =
          src.data[4 * srcPixIdx src.width (r, c2) + o]?) := by
  have hlen0 : (dst.paste x y w h src).data.length = dst.data.length := by
    rw [paste_data_eq_pixList]
    exact foldl_writeStep_length dst.width dst.height src.width src.height x y
      src.data (pixList h w) dst.data
  refine ⟨rfl, rfl, hlen0, ?_, ?_⟩
  · intro p hp
    rw [paste_data_eq_pixList]
    refine foldl_writeStep_untouched dst.width dst.height src.width src.height x y
      src.data (pixList h w) dst.data p ?_
    intro rc hmem hdp hsp
    obtain ⟨hr, hc⟩ := (pixList_mem h w rc).1 hmem
    exact hp rc.1 rc.2 hr hc hdp hsp
  · intro r c2 hr hc hdp hsp huniq
    have hlen : 4 * dstPixIdx dst.width x y (r, c2) + 3 < dst.data.length := by
      rw [hd]
      generalize dstPixIdx dst.width x y (r, c2) = D at hdp ⊢
      generalize dst.width * dst.height = P at hdp ⊢
      omega
    have hsb : ∀ o, o < 4 → 4 * srcPixIdx src.width (r, c2) + o < src.data.length := by
      intro o ho
      rw [hs]
      generalize srcPixIdx src.width (r, c2) = S at hsp ⊢
      generalize src.width * src.height = Q at hsp ⊢
      omega
    refine ⟨hlen, by have := hsb 3 (by omega); omega, ?_⟩
    intro o ho
    rw [paste_data_eq_pixList]
    have hval := foldl_writeStep_value dst.width dst.height src.width src.height x y
      src.data (pixList h w) dst.data (r, c2) (pixList_nodup w h)
      ((pixList_mem h w (r, c2)).2 ⟨hr, hc⟩) hdp hsp hlen ?huniq o ho
    case huniq =>
      intro rc2 hmem2 hne hd2 hs2
      obtain ⟨hr2, hc2b⟩ := (pixList_mem h w rc2).1 hmem2
      exact huniq rc2.1 rc2.2 hr2 hc2b hne hd2 hs2
    rw [hval, List.getElem?_eq_getElem (hsb o ho)]
    rw [List.getD_eq_getElem src.data 0 (hsb o ho)]

/-- Witness for C4: pasting the 4×4 source at (6, 6) on the 8×8
destination — cell (0,0) is copied (destination pixel 54, source pixel 0),
while byte 0 of the destination is untouched. -/
theorem paste_clipping_spec_witness :
    (exDst.paste 6 6 4 4 exSrc).data[4 * dstPixIdx exDst.width 6 6 (0, 0) + 0]? =
      exSrc.data[4 * srcPixIdx exSrc.width (0, 0) + 0]? ∧
    (exDst.paste 6 6 4 4 exSrc).data[0]? = exDst.data[0]? := by
  have h := paste_clipping_spec exDst exSrc 6 6 4 4 (by decide) (by decide)
    (by decide) (by decide) (by decide) (by decide) (by decide) (by decide)
  refine ⟨(h.2.2.2.2 0 0 (by decide) (by decide) (by decide) (by decide)
      ?_).2.2 0 (by decide), h.2.2.2.1 0 ?_⟩
  · simp only [dstPixIdx, srcPixIdx, exDst, exSrc, ne_eq, Prod.mk.injEq]
    omega
  · simp only [dstPixIdx, srcPixIdx, exDst, exSrc]
    omega

/-- C4 counterexample: the claim's example pastes a 4×4 source at
destination (-2, -2) onto an 8×8 surface and expects only the 2×2
overlapping region to be written.  `paste` takes `usize` coordinates, so a
negative position cannot be passed; the callers' `as usize` cast of a
negative `f32` coordinate saturates to 0 (modelled by `ratToUsize`), so
the request lands at (0, 0) and the FULL 4×4 block is written: pixel
(3, 3) — far outside any 2×2 corner region — receives the source byte 7
where the destination held 0. -/
theorem paste_negative_origin_counterexample :
    ratToUsize (-2 : ℚ) = 0 ∧
    (exDst.paste (ratToUsize (-2 : ℚ)) (ratToUsize (-2 : ℚ)) 4 4
        exSrc).data[4 * (3 * 8 + 3)]? = some 7 ∧
    exDst.data[4 * (3 * 8 + 3)]? = some 0 := by
  refine ⟨by decide, by decide, by decide⟩
